import Mathlib

/-!
Verification development for the SVTVision pipeline backend.

The definitions below are a shallow embedding of the Python sources under
`src/backend/src/plana/domain/`:

* `graph_model.py`      → graph data model and the three structural validators
* `runtime_compiler.py` → compilation of a validated graph into an `ExecutionPlan`
* `pipeline_builder.py` → side-tap sink construction and the synthesized preview tap
* `vision_pipeline.py`  → the per-frame stage-chain execution engine
* `camera_manager.py`   → the raw-frame queue and its drop accounting

Python recursion (DFS/BFS loops) is embedded with an explicit fuel parameter;
fuel exhaustion surfaces as a failure result and the fuel passed at every entry
point is large enough for the loops of the source (each loop visits a node or
edge at most a bounded number of times).  Python `dict`s are embedded as
association lists with Python's insertion-order update semantics
(`dictInsert`/`dictLookup`).  Image frames are an arbitrary type parameter:
none of the embedded control flow inspects pixel data.
-/

namespace SVT

/-- Python dict assignment on an association list: replace the value of an
existing key in place (keeping its position), otherwise append the binding. -/
def dictInsert {κ α : Type} [BEq κ] (m : List (κ × α)) (k : κ) (v : α) :
    List (κ × α) :=
  if m.any (fun kv => kv.1 == k) then
    m.map (fun kv => if kv.1 == k then (k, v) else kv)
  else
    m ++ [(k, v)]

/-- Python dict lookup on an association list. -/
def dictLookup {κ α : Type} [BEq κ] (m : List (κ × α)) (k : κ) : Option α :=
  (m.find? (fun kv => kv.1 == k)).map (·.2)

/-- Helper for `dedupFirst`. -/
def dedupFirstAux {α : Type} [BEq α] (seen : List α) : List α → List α
  | [] => []
  | x :: xs =>
    if seen.contains x then dedupFirstAux seen xs
    else x :: dedupFirstAux (x :: seen) xs

/-- Insertion-ordered model of a Python set built by repeated insertion:
keep the first occurrence of each element. -/
def dedupFirst {α : Type} [BEq α] (l : List α) : List α :=
  dedupFirstAux [] l

/-- Boolean test that `pat` occurs as a contiguous sublist of `l`. -/
def infixOfB {α : Type} [BEq α] (pat : List α) : List α → Bool
  | [] => pat.isEmpty
  | x :: xs => pat.isPrefixOf (x :: xs) || infixOfB pat xs

/-- Boolean test that the decimal rendering of `n` occurs inside `msg`
(used to state that an error message "names the count"). -/
def namesCount (msg : String) (n : Nat) : Bool :=
  infixOfB (toString n).data msg.data

/-- Node configuration maps; the pipeline claims never inspect the values,
only that configurations are carried along, so entries are plain strings. -/
def Config : Type := List (String × String)

instance : DecidableEq Config := by
  unfold Config
  infer_instance

instance : BEq Config := by
  unfold Config
  infer_instance

/-- Embedding of `graph_model.GraphNode`. -/
structure GraphNode where
  id : String
  type : String
  stage_id : Option String := none
  source_type : Option String := none
  sink_type : Option String := none
  config : Option Config := none
deriving DecidableEq

/-- Embedding of `graph_model.GraphEdge`. -/
structure GraphEdge where
  id : String
  source_node : String
  source_port : String
  target_node : String
  target_port : String
deriving DecidableEq

/-- Embedding of `graph_model.PipelineGraph` (the unused layout/name fields are
omitted: no validator or compiler code reads them). -/
structure PipelineGraph where
  nodes : List GraphNode
  edges : List GraphEdge
deriving DecidableEq

/-- Embedding of `PipelineGraph.get_node`: first node with the given id. -/
def PipelineGraph.get_node (g : PipelineGraph) (node_id : String) : Option GraphNode :=
  g.nodes.find? (fun n => n.id == node_id)

/-- Embedding of `PipelineGraph.get_sources`. -/
def PipelineGraph.get_sources (g : PipelineGraph) : List GraphNode :=
  g.nodes.filter (fun n => n.type == "source")

/-- Embedding of `PipelineGraph.get_sinks`. -/
def PipelineGraph.get_sinks (g : PipelineGraph) : List GraphNode :=
  g.nodes.filter (fun n => n.type == "sink")

/-- Node-id universe of a graph (the Python set `{n.id for n in graph.nodes}`,
kept in first-occurrence order). -/
def PipelineGraph.nodeIds (g : PipelineGraph) : List String :=
  dedupFirst (g.nodes.map (·.id))

/-- Embedding of `PipelineGraph._outgoing` read through `outgoing.get(nid, [])`:
for a node id, the targets of its outgoing edges in edge-list order; for an id
that is not a node, the empty list. -/
def PipelineGraph.outgoing (g : PipelineGraph) (nid : String) : List String :=
  if g.nodes.any (fun n => n.id == nid) then
    (g.edges.filter (fun e => e.source_node == nid)).map (·.target_node)
  else
    []

/-- Colors of the three-color DFS in `validate_dag`. -/
inductive Color where
  | white
  | gray
  | black
deriving DecidableEq

/-- Functional update of a color map. -/
def setColor (c : String → Color) (nid : String) (v : Color) : String → Color :=
  fun x => if x == nid then v else c x

mutual

/-- Embedding of the recursive `dfs` of `validate_dag`: visit one node.
Returns the updated color map, whether the subtree is acyclic, and the error
messages appended (the Python code appends at most one message and the caller
returns immediately on failure). -/
def dagDfs (out : String → List String) (nodeIds : List String) :
    Nat → (String → Color) → String → ((String → Color) × Bool × List String)
  | 0, c, _ => (c, false, ["Cycle check aborted: fuel exhausted"])
  | fuel + 1, c, nid =>
    match c nid with
    | Color.gray => (c, false, ["Cycle detected involving node " ++ nid])
    | Color.black => (c, true, [])
    | Color.white =>
      match dagDfsFold out nodeIds fuel (setColor c nid Color.gray) (out nid) with
      | (c2, true, _) => (setColor c2 nid Color.black, true, [])
      | (c2, false, errs) => (c2, false, errs)

/-- Embedding of the `for target in outgoing.get(nid, [])` loop inside `dfs`. -/
def dagDfsFold (out : String → List String) (nodeIds : List String) :
    Nat → (String → Color) → List String → ((String → Color) × Bool × List String)
  | 0, c, _ => (c, false, ["Cycle check aborted: fuel exhausted"])
  | _ + 1, c, [] => (c, true, [])
  | fuel + 1, c, t :: ts =>
    if nodeIds.contains t then
      match dagDfs out nodeIds fuel c t with
      | (c2, true, _) => dagDfsFold out nodeIds fuel c2 ts
      | (c2, false, errs) => (c2, false, errs)
    else
      dagDfsFold out nodeIds fuel c ts

end

/-- Outer loop of `validate_dag`: run `dfs` from every still-white node. -/
def dagLoop (out : String → List String) (nodeIds : List String) (fuel : Nat) :
    List String → (String → Color) → Bool × List String
  | [], _ => (true, [])
  | nid :: rest, c =>
    match c nid with
    | Color.white =>
      match dagDfs out nodeIds fuel c nid with
      | (c2, true, _) => dagLoop out nodeIds fuel rest c2
      | (_, false, errs) => (false, errs)
    | _ => dagLoop out nodeIds fuel rest c

/-- Fuel bound used for the graph traversals; generous for the loops of the
source, which visit each node and edge a bounded number of times. -/
def graphFuel (g : PipelineGraph) : Nat :=
  2 * (g.nodes.length + g.edges.length) + 4

/-- Embedding of `graph_model.validate_dag`. -/
def validate_dag (g : PipelineGraph) : Bool × List String :=
  dagLoop g.outgoing g.nodeIds (graphFuel g) g.nodeIds (fun _ => Color.white)

/-- Embedding of the BFS of `validate_single_source`: the queue may hold
duplicates (the Python code checks membership against `reachable`, which is
only updated at pop time).  Returns the reached set in first-reached order. -/
def bfsReach (out : String → List String) (nodeIds : List String) :
    Nat → List String → List String → List String
  | 0, reached, _ => reached
  | _ + 1, reached, [] => reached
  | fuel + 1, reached, nid :: queue =>
    if reached.contains nid then
      bfsReach out nodeIds fuel reached queue
    else
      let reached2 := reached ++ [nid]
      let fresh := (out nid).filter
        (fun t => nodeIds.contains t && !reached2.contains t)
      bfsReach out nodeIds fuel reached2 (queue ++ fresh)

/-- Embedding of `graph_model.validate_single_source`. -/
def validate_single_source (g : PipelineGraph) : Bool × List String :=
  let sources := g.get_sources
  if sources.length == 0 then
    (false,
      ["Graph must have exactly one source node (CameraSource, VideoFileSource, or ImageFileSource)"])
  else if sources.length > 1 then
    let n := sources.length
    let ids := sources.map (·.id)
    (false, ["Graph must have exactly one source; found " ++ toString n ++ ": " ++ toString ids])
  else
    let start := (sources.headD ⟨"", "", none, none, none, none⟩).id
    let reachable := bfsReach g.outgoing g.nodeIds (graphFuel g) [] [start]
    let unreachable := g.nodeIds.filter (fun nid => !reachable.contains nid)
    if unreachable.isEmpty then
      (true, [])
    else
      (false, ["Unreachable nodes from source: " ++ toString unreachable])

/-- Embedding of `graph_model.validate_single_input_per_port`.  The message
text drops the Python quotation marks around the port name; no claim inspects
this message. -/
def validate_single_input_per_port (g : PipelineGraph) : Bool × List String :=
  let keys := dedupFirst (g.edges.map (fun e => (e.target_node, e.target_port)))
  let errs := keys.filterMap (fun k =>
    let count :=
      (g.edges.filter (fun e => (e.target_node, e.target_port) == k)).length
    if count > 1 then
      some ("Node " ++ k.1 ++ " input port " ++ k.2 ++ " has " ++ toString count ++
        " inputs (max 1)")
    else none)
  (errs.isEmpty, errs)

/-- Embedding of `graph_model.validate_graph`: `none` when the function
returns normally, `some errors` when it raises `GraphValidationError errors`. -/
def validate_graph (g : PipelineGraph) : Option (List String) :=
  let r1 := validate_dag g
  let r2 := validate_single_source g
  let r3 := validate_single_input_per_port g
  let all_errors :=
    (if r1.1 then [] else r1.2) ++ (if r2.1 then [] else r2.2) ++
      (if r3.1 then [] else r3.2)
  if all_errors.isEmpty then none else some all_errors

/-! Embedding of `runtime_compiler.py`. -/

/-- Embedding of `runtime_compiler.SideTap`. -/
structure SideTap where
  node_id : String
  sink_type : String
  attach_point : String
  source_port : String
  target_port : String
deriving DecidableEq

/-- Embedding of `runtime_compiler.ExecutionPlan`. -/
structure ExecutionPlan where
  main_path : List String
  side_taps : List SideTap := []
  node_configs : List (String × Config) := []
deriving DecidableEq

/-- Embedding of `runtime_compiler.SIDE_TAP_SINK_TYPES`. -/
def SIDE_TAP_SINK_TYPES : List String := ["stream_tap", "save_video", "save_image"]

/-- Embedding of `runtime_compiler._find_svt_output`. -/
def find_svt_output (g : PipelineGraph) : Option GraphNode :=
  g.get_sinks.find? (fun n => n.sink_type == some "svt_output")

mutual

/-- Embedding of `runtime_compiler._find_path_dfs`.  The Python code copies
`visited` into every recursive call, so the search is purely functional; the
embedding adds fuel for termination (exhaustion yields `none`, and callers pass
fuel larger than any possible recursion depth of the source). -/
def find_path_dfs (out : String → List String) :
    Nat → String → String → List String → List String → Option (List String)
  | 0, _, _, _, _ => none
  | fuel + 1, start, target, visited, path =>
    if start == target then some (path ++ [start])
    else if visited.contains start then none
    else find_path_fold out fuel (out start) target (start :: visited) (path ++ [start])

/-- Embedding of the `for (nxt, _, _) in outgoing.get(start, [])` loop of
`_find_path_dfs`: return the first successful recursive search. -/
def find_path_fold (out : String → List String) :
    Nat → List String → String → List String → List String → Option (List String)
  | 0, _, _, _, _ => none
  | _ + 1, [], _, _, _ => none
  | fuel + 1, nxt :: rest, target, visited, path =>
    match find_path_dfs out fuel nxt target visited path with
    | some result => some result
    | none => find_path_fold out fuel rest target visited path

end

/-- Embedding of `runtime_compiler._nodes_reachable_from` (BFS that marks nodes
reachable at enqueue time, so the queue holds no duplicates). -/
def nodes_reachable_from (out : String → List String) :
    Nat → List String → List String → List String
  | 0, reachable, _ => reachable
  | _ + 1, reachable, [] => reachable
  | fuel + 1, reachable, node :: queue =>
    let step := (out node).foldl
      (fun (acc : List String × List String) nxt =>
        if acc.1.contains nxt then acc else (acc.1 ++ [nxt], acc.2 ++ [nxt]))
      (reachable, queue)
    nodes_reachable_from out fuel step.1 step.2

/-- Side-tap record made from one edge (step 4 of `compile_graph`): defined
exactly when the edge's target resolves to a side-tap-kind sink and the edge's
source node lies on the main path. -/
def sideTapOfEdge (g : PipelineGraph) (main_path : List String) (e : GraphEdge) :
    Option SideTap :=
  match g.get_node e.target_node with
  | none => none
  | some target_node =>
    match target_node.sink_type with
    | none => none
    | some st =>
      if SIDE_TAP_SINK_TYPES.contains st && main_path.contains e.source_node then
        some ⟨e.target_node, st, e.source_node, e.source_port, e.target_port⟩
      else none

/-- Steps 4 and 5 of `compile_graph`: extract side taps for a main path and
copy every node's config (`dict(n.config)` keyed by node id). -/
def finishPlan (g : PipelineGraph) (main_path : List String) : ExecutionPlan :=
  let side_taps := g.edges.filterMap (sideTapOfEdge g main_path)
  let node_configs := g.nodes.foldl
    (fun m n => dictInsert m n.id (n.config.getD [])) []
  ⟨main_path, side_taps, node_configs⟩

/-- Attach points of the no-terminal branch of `compile_graph`: the Python set
`{e.source_node for e in side_tap_edges}` in first-occurrence order. -/
def attachPoints (side_tap_edges : List GraphEdge) : List String :=
  dedupFirst (side_tap_edges.map (·.source_node))

/-- Side-tap edges considered by the no-terminal branch of `compile_graph`. -/
def sideTapEdges (g : PipelineGraph) (reachable : List String) : List GraphEdge :=
  g.edges.filter (fun e =>
    reachable.contains e.source_node &&
      (match g.get_node e.target_node with
       | some tn =>
         (match tn.sink_type with
          | some st => SIDE_TAP_SINK_TYPES.contains st
          | none => false)
       | none => false))

/-- Main-path selection of the no-terminal branch: the longest of the
first-found DFS paths to the attach points, seeded with `[source]`. -/
def bestAttachPath (out : String → List String) (fuel : Nat) (sourceId : String)
    (aps : List String) : List String :=
  aps.foldl
    (fun best ap =>
      match find_path_dfs out fuel sourceId ap [] [] with
      | some p => if p.length > best.length then p else best
      | none => best)
    [sourceId]

/-- Embedding of `runtime_compiler.compile_graph` on the already-decoded node
and edge records (the Python function first copies its raw dict arguments into
exactly these dataclasses).  A raised `GraphValidationError` is `Except.error`
carrying the error list. -/
def compile_graph (nodes : List GraphNode) (edges : List GraphEdge) :
    Except (List String) ExecutionPlan :=
  let g : PipelineGraph := ⟨nodes, edges⟩
  match validate_graph g with
  | some errs => Except.error errs
  | none =>
    match g.get_sources with
    | [] => Except.error ["Graph must have exactly one source"]
    | source :: _ =>
      let out := g.outgoing
      let fuel := graphFuel g
      match find_svt_output g with
      | some svt_sink =>
        match find_path_dfs out fuel source.id svt_sink.id [] [] with
        | none => Except.error ["SVTVisionOutput must be reachable from the source node"]
        | some path => Except.ok (finishPlan g path)
      | none =>
        let reachable := nodes_reachable_from out fuel [source.id] [source.id]
        let ste := sideTapEdges g reachable
        if ste.isEmpty then
          Except.error
            ["Graph must have an SVTVisionOutput sink or a path from the source to at least one StreamTap/SaveVideo/SaveImage"]
        else
          Except.ok (finishPlan g (bestAttachPath out fuel source.id (attachPoints ste)))

/-- Boolean test that a node-id sequence is a chain of edges of the graph
(consecutive elements joined by some edge). -/
def isEdgeChain (g : PipelineGraph) : List String → Bool
  | [] => true
  | [_] => true
  | a :: b :: rest =>
    g.edges.any (fun e => e.source_node == a && e.target_node == b) &&
      isEdgeChain g (b :: rest)

/-! Embedding of `vision_pipeline.py`.  Image frames are a type parameter `F`:
the engine's control flow never inspects pixel data.  A stage's `process` may
raise (modelled by `Except Unit`) or return no frame (modelled by `Option F`);
the geometric fields of `TagDetection` (floating-point corners and center) are
never read by the engine and are omitted, only `tag_id` is kept. -/

/-- Embedding of `ports.tag_detector_port.TagDetection`, restricted to the one
field the pipeline engine reads. -/
structure TagDetection where
  tag_id : Int
deriving DecidableEq

/-- Embedding of `vision_pipeline.StageFrame` (the lazily-encoded JPEG cache is
never read by the control flow settled here and is omitted). -/
structure StageFrame (F : Type) where
  stage : String
  frame : F
deriving DecidableEq

/-- Embedding of the mutable `context` dict threaded through the stage chain:
its two keys written by the engine and the built-in stages. -/
structure PipeCtx (F : Type) where
  raw_frame : F
  detections : List TagDetection
deriving DecidableEq

/-- Embedding of a `PipelineStagePort` implementation: a name and a `process`
behaviour.  The frame argument is optional because the engine passes the
current loop frame, which becomes `None` after a skipped stage. -/
structure PStage (F : Type) where
  name : String
  process : Option F → PipeCtx F → Except Unit (Option F × PipeCtx F)

/-- Embedding of one per-tag entry of `detection_stats`. -/
structure TagStat where
  count : Nat
  first_seen : Nat
  last_seen : Nat
deriving DecidableEq

/-- Mutable state of a `VisionPipeline` instance (the stage list itself is
fixed at construction and passed separately). -/
structure PipelineState (F : Type) where
  raw_frames : List (StageFrame F)
  stage_frames : List (String × List (StageFrame F))
  latest_detections : List TagDetection
  detection_stats : List (Int × TagStat)
  frames_processed : Nat
  detections_count : Nat
  frames_with_detections : Nat
  total_detections_all_tags : Nat
deriving DecidableEq

/-- Append on a `deque(maxlen=n)`: a full deque evicts its oldest entry. -/
def dequePushN {α : Type} (maxlen : Nat) (q : List α) (x : α) : List α :=
  let q2 := q ++ [x]
  q2.drop (q2.length - maxlen)

/-- Embedding of the `__init__` loop `for s in stages: _stage_frames[s.name] = deque(maxlen=3)`. -/
def initStageFrames {F : Type} (stages : List (PStage F)) :
    List (String × List (StageFrame F)) :=
  stages.foldl (fun m s => dictInsert m s.name []) []

/-- Fresh `VisionPipeline` state as built by `__init__` / `from_stages`. -/
def pipelineInit {F : Type} (stages : List (PStage F)) : PipelineState F :=
  ⟨[], initStageFrames stages, [], [], 0, 0, 0, 0⟩

/-- Record of one `stage.process` invocation: the stage name, the frame
argument passed by the engine, and the context at call time. -/
structure StageCall (F : Type) where
  name : String
  arg : Option F
  ctx : PipeCtx F
deriving DecidableEq

/-- Outcome of the stage loop of `process_frame`: an uncaught exception, the
early return taken when the `preprocess` stage yields no frame, or normal
completion.  Each carries the state as mutated so far and the invocation
trace. -/
inductive LoopOut (F : Type) where
  | raised (st : PipelineState F) (trace : List (StageCall F))
  | aborted (st : PipelineState F) (trace : List (StageCall F))
  | finished (st : PipelineState F) (frame : Option F) (ctx : PipeCtx F)
      (trace : List (StageCall F))

/-- Embedding of the `for stage in self._stages` loop of `process_frame`.
Dispatch to attached stream taps is omitted: the source wraps each
`tap.push_frame` in its own try/except, so tap errors can never affect the
pipeline state or result.  A missing `_stage_frames` key is a Python
`KeyError`, i.e. `raised`. -/
def runStages {F : Type} :
    List (PStage F) → Option F → PipeCtx F → PipelineState F →
      List (StageCall F) → LoopOut F
  | [], frame, ctx, st, tr => LoopOut.finished st frame ctx tr
  | stage :: rest, frame, ctx, st, tr =>
    let arg := if stage.name == "detect_overlay" then some ctx.raw_frame else frame
    let tr2 := tr ++ [⟨stage.name, arg, ctx⟩]
    match stage.process arg ctx with
    | Except.error _ => LoopOut.raised st tr2
    | Except.ok (newFrame, ctx2) =>
      match newFrame with
      | none =>
        if stage.name == "preprocess" then LoopOut.aborted st tr2
        else runStages rest none ctx2 st tr2
      | some f =>
        match dictLookup st.stage_frames stage.name with
        | none => LoopOut.raised st tr2
        | some q =>
          let st2 := { st with
            stage_frames :=
              dictInsert st.stage_frames stage.name (dequePushN 3 q ⟨stage.name, f⟩) }
          runStages rest (some f) ctx2 st2 tr2

/-- Return value of `process_frame`.  The Python dict is split by value shape:
the `"raw"` entry, the `"detections"` entry, and the per-stage-name entries in
dict insertion order. -/
structure FrameResult (F : Type) where
  raw : Option (StageFrame F)
  detections : List TagDetection
  stage_out : List (String × Option (StageFrame F))
deriving DecidableEq

/-- Result built by the outer `except` handler of `process_frame`. -/
def fallbackResult {F : Type} (stages : List (PStage F)) : FrameResult F :=
  ⟨none, [], stages.foldl (fun m s => dictInsert m s.name none) []⟩

/-- Embedding of the per-detection statistics update of `process_frame`. -/
def statsUpdate (stats : List (Int × TagStat)) (now : Nat)
    (ds : List TagDetection) : List (Int × TagStat) :=
  ds.foldl
    (fun m d =>
      match dictLookup m d.tag_id with
      | none => dictInsert m d.tag_id ⟨1, now, now⟩
      | some s => dictInsert m d.tag_id ⟨s.count + 1, s.first_seen, now⟩)
    stats

/-- Embedding of the result-building loop `for s in self._stages:
out[s.name] = self._stage_frames[s.name][-1] if ... else None`; a missing key
is a Python `KeyError`, i.e. `none`. -/
def buildStageOut {F : Type} (sfmap : List (String × List (StageFrame F))) :
    List (PStage F) → List (String × Option (StageFrame F)) →
      Option (List (String × Option (StageFrame F)))
  | [], acc => some acc
  | s :: rest, acc =>
    match dictLookup sfmap s.name with
    | none => none
    | some q => buildStageOut sfmap rest (dictInsert acc s.name q.getLast?)

/-- Post-loop state update of `process_frame` (latest detections, counters,
per-tag statistics, `frames_processed`). -/
def postLoopState {F : Type} (st2 : PipelineState F) (ctx : PipeCtx F)
    (now : Nat) : PipelineState F :=
  let detections := ctx.detections
  let n := detections.length
  let st3 := { st2 with
    latest_detections := detections
    detections_count := st2.detections_count + n
    total_detections_all_tags := st2.total_detections_all_tags + n }
  let st4 :=
    if n > 0 then
      { st3 with
        frames_with_detections := st3.frames_with_detections + 1
        detection_stats := statsUpdate st3.detection_stats now detections }
    else st3
  { st4 with frames_processed := st4.frames_processed + 1 }

/-- Normal-completion tail of `process_frame`: update the counters and build
the result dict (a missing frame-buffer key while building the dict is a
`KeyError`, caught by the outer handler, hence the fallback branch). -/
def finishFrame {F : Type} (stages : List (PStage F)) (raw_stage : StageFrame F)
    (st2 : PipelineState F) (ctx : PipeCtx F) (now : Nat)
    (tr : List (StageCall F)) :
    PipelineState F × FrameResult F × List (StageCall F) :=
  let st5 := postLoopState st2 ctx now
  match buildStageOut st5.stage_frames stages [] with
  | some stage_out => (st5, ⟨some raw_stage, ctx.detections, stage_out⟩, tr)
  | none => (st5, fallbackResult stages, tr)

/-- Embedding of `VisionPipeline.process_frame`.  `toGray` stands for the
channel conversion `cv2.cvtColor`/`copy` applied before the stage chain;
`now` stands for `time.time()`.  Returns the updated state, the result dict,
and the trace of stage invocations. -/
def processFrame {F : Type} (stages : List (PStage F)) (toGray : F → F)
    (st : PipelineState F) (raw_frame : F) (now : Nat) :
    PipelineState F × FrameResult F × List (StageCall F) :=
  let raw_stage : StageFrame F := ⟨"raw", raw_frame⟩
  let st1 := { st with raw_frames := dequePushN 3 st.raw_frames raw_stage }
  let gray := toGray raw_frame
  let ctx0 : PipeCtx F := ⟨raw_frame, []⟩
  match runStages stages (some gray) ctx0 st1 [] with
  | LoopOut.raised st2 tr => (st2, fallbackResult stages, tr)
  | LoopOut.aborted st2 tr =>
    (st2, ⟨some raw_stage, [], [("preprocess", none), ("detect_overlay", none)]⟩, tr)
  | LoopOut.finished st2 _ ctx tr => finishFrame stages raw_stage st2 ctx now tr

/-- Embedding of `vision_pipeline._PreprocessStage` over a `PreprocessPort`
behaviour `pre` (which may raise or return no frame). -/
def preprocessStage {F : Type} (pre : Option F → Except Unit (Option F)) : PStage F :=
  ⟨"preprocess", fun frame ctx =>
    match pre frame with
    | Except.error e => Except.error e
    | Except.ok out => Except.ok (out, ctx)⟩

/-- Embedding of `vision_pipeline._DetectStage` over a detector behaviour:
runs the detector and stores the detections into the context. -/
def detectStage {F : Type} (det : Option F → Except Unit (List TagDetection)) :
    PStage F :=
  ⟨"detect", fun frame ctx =>
    match det frame with
    | Except.error e => Except.error e
    | Except.ok ds => Except.ok (frame, { ctx with detections := ds })⟩

/-- Embedding of `vision_pipeline._OverlayStage` over a `draw_overlay`
behaviour: draws the context's detections on the context's raw frame. -/
def overlayStage {F : Type} (draw : F → List TagDetection → Except Unit F) :
    PStage F :=
  ⟨"detect_overlay", fun _frame ctx =>
    match draw ctx.raw_frame ctx.detections with
    | Except.error e => Except.error e
    | Except.ok overlay => Except.ok (some overlay, ctx)⟩

/-- Predicate selecting the three built-in stage adapters of
`vision_pipeline.py`. -/
def IsBuiltin {F : Type} (s : PStage F) : Prop :=
  (∃ pre, s = preprocessStage pre) ∨ (∃ det, s = detectStage det) ∨
    (∃ draw, s = overlayStage draw)

/-! Embedding of the raw-frame queue of `camera_manager.py`. -/

/-- Capacity of `CameraManager.raw_frame_queue` in the source:
`deque(maxlen=5)`. -/
def RAW_QUEUE_MAXLEN : Nat := 5

/-- State of a `CameraManager` touched by `enqueue_raw_frame`. -/
structure CamState (F : Type) where
  raw_frame_queue : List F
  frames_captured : Nat
  frames_dropped : Nat
  last_frame_time : Nat
deriving DecidableEq

/-- CameraManager state right after `open` (queues cleared, metrics reset). -/
def camInit {F : Type} : CamState F := ⟨[], 0, 0, 0⟩

/-- Embedding of `CameraManager.enqueue_raw_frame` (`now` stands for
`time.time()`; the defensive try/except around a deque append can never fire
in the model, so the call always returns `True` as the append itself cannot
raise). -/
def enqueue_raw_frame {F : Type} (st : CamState F) (raw_frame : F) (now : Nat) :
    CamState F × Bool :=
  let was_full := decide (st.raw_frame_queue.length ≥ RAW_QUEUE_MAXLEN)
  let old_frame_count := st.raw_frame_queue.length
  let q := dequePushN RAW_QUEUE_MAXLEN st.raw_frame_queue raw_frame
  let dropped :=
    if was_full && (q.length == old_frame_count) then st.frames_dropped + 1
    else st.frames_dropped
  ({ raw_frame_queue := q, frames_captured := st.frames_captured + 1,
     frames_dropped := dropped, last_frame_time := now }, true)

/-! Embedding of `pipeline_builder.build_pipeline_with_taps`.  Output-path and
fps resolution for save sinks touch the filesystem, clock and RNG
(`_resolve_save_path`, `_random_output_filename`); created sinks are therefore
recorded by id, attach point and kind only — no settled claim reads paths.
Likewise the concrete adapter objects (preprocessor back-ends, tag detector)
are construction side effects with no bearing on which taps are created. -/

/-- Created `StreamTap` as observable by the claims (`tap_id`,
`attach_point`). -/
structure StreamTapRec where
  tap_id : String
  attach_point : String
deriving DecidableEq

/-- Created `SaveVideoSink`/`SaveImageSink`, recorded by id, attach point and
kind. -/
structure SaveSinkRec where
  sink_id : String
  attach_point : String
  kind : String
deriving DecidableEq

/-- Reference to a created side-tap consumer, as stored in the
`side_taps_by_stage` dict. -/
inductive TapRef where
  | stream (t : StreamTapRec)
  | save (s : SaveSinkRec)
deriving DecidableEq

/-- Append one element to the list stored under `k` (the key is present). -/
def dictAppendTap (m : List (String × List TapRef)) (k : String) (v : TapRef) :
    List (String × List TapRef) :=
  m.map (fun kv => if kv.1 == k then (kv.1, kv.2 ++ [v]) else kv)

/-- Embedding of `node_by_id = {n.get("id", ""): n for n in nodes}`: a later
node with the same id overwrites an earlier one. -/
def nodeById (nodes : List GraphNode) (nid : String) : Option GraphNode :=
  nodes.reverse.find? (fun n => n.id == nid)

/-- Embedding of the stage-resolution loop over `plan.main_path`: returns the
built stage names in order and the `node_id_to_stage_name` dict, or `none`
when an unknown `stage_id` aborts the build. -/
def resolveStagesGo (nodes : List GraphNode) :
    List String → List String → List (String × String) →
      Option (List String × List (String × String))
  | [], stages, n2s => some (stages, n2s)
  | node_id :: rest, stages, n2s =>
    match nodeById nodes node_id with
    | none => resolveStagesGo nodes rest stages n2s
    | some node =>
      if node.type == "source" || node.type == "sink" then
        resolveStagesGo nodes rest stages n2s
      else if node.type != "stage" then
        resolveStagesGo nodes rest stages n2s
      else
        let stage_id :=
          match node.stage_id with
          | some sid => if sid == "" then node.id else sid
          | none => node.id
        if stage_id == "preprocess_cpu" || stage_id == "preprocess_gpu" then
          resolveStagesGo nodes rest (stages ++ ["preprocess"])
            (dictInsert n2s node_id "preprocess")
        else if stage_id == "detect_apriltag_cpu" then
          resolveStagesGo nodes rest (stages ++ ["detect"])
            (dictInsert n2s node_id "detect")
        else if stage_id == "overlay_cpu" then
          resolveStagesGo nodes rest (stages ++ ["detect_overlay"])
            (dictInsert n2s node_id "detect_overlay")
        else
          none

/-- Accumulator of the side-tap creation loop. -/
structure TapsAccum where
  stream_taps : List StreamTapRec
  save_sinks : List SaveSinkRec
  by_stage : List (String × List TapRef)
deriving DecidableEq

/-- Ensure `side_taps_by_stage` has a (possibly empty) list under `k`. -/
def ensureKey (m : List (String × List TapRef)) (k : String) :
    List (String × List TapRef) :=
  if m.any (fun kv => kv.1 == k) then m else m ++ [(k, [])]

/-- Embedding of the `for side_tap in plan.side_taps` loop of
`build_pipeline_with_taps`. -/
def buildSideTaps (main_path : List String) (n2s : List (String × String)) :
    List SideTap → TapsAccum → TapsAccum
  | [], acc => acc
  | stp :: rest, acc =>
    let resolved : Option String :=
      match dictLookup n2s stp.attach_point with
      | some s => some s
      | none =>
        if main_path.contains stp.attach_point then some "__source__" else none
    match resolved with
    | none => buildSideTaps main_path n2s rest acc
    | some attach_stage =>
      let by1 := ensureKey acc.by_stage attach_stage
      if stp.sink_type == "stream_tap" then
        let tap : StreamTapRec := ⟨stp.node_id, stp.attach_point⟩
        buildSideTaps main_path n2s rest
          ⟨acc.stream_taps ++ [tap], acc.save_sinks,
            dictAppendTap by1 attach_stage (TapRef.stream tap)⟩
      else if stp.sink_type == "save_video" then
        let sink : SaveSinkRec := ⟨stp.node_id, stp.attach_point, "save_video"⟩
        buildSideTaps main_path n2s rest
          ⟨acc.stream_taps, acc.save_sinks ++ [sink],
            dictAppendTap by1 attach_stage (TapRef.save sink)⟩
      else if stp.sink_type == "save_image" then
        let sink : SaveSinkRec := ⟨stp.node_id, stp.attach_point, "save_image"⟩
        buildSideTaps main_path n2s rest
          ⟨acc.stream_taps, acc.save_sinks ++ [sink],
            dictAppendTap by1 attach_stage (TapRef.save sink)⟩
      else
        buildSideTaps main_path n2s rest ⟨acc.stream_taps, acc.save_sinks, by1⟩

/-- Observable output of `build_pipeline_with_taps`. -/
structure BuildResult where
  stage_names : List String
  stream_taps : List StreamTapRec
  save_sinks : List SaveSinkRec
  taps_by_stage : List (String × List TapRef)
deriving DecidableEq

/-- Embedding of `build_pipeline_with_taps`: `none` models the build failure
paths that return `None`. -/
def build_pipeline_with_taps (plan : ExecutionPlan) (nodes : List GraphNode) :
    Option BuildResult :=
  match resolveStagesGo nodes plan.main_path [] [] with
  | none => none
  | some (stage_names, n2s) =>
    let acc := buildSideTaps plan.main_path n2s plan.side_taps ⟨[], [], []⟩
    let acc2 :=
      if acc.stream_taps.isEmpty && !plan.main_path.isEmpty then
        match plan.main_path.head? with
        | some source_node_id =>
          let preview : StreamTapRec := ⟨"preview", source_node_id⟩
          let by1 := ensureKey acc.by_stage "__source__"
          (⟨acc.stream_taps ++ [preview], acc.save_sinks,
            dictAppendTap by1 "__source__" (TapRef.stream preview)⟩ : TapsAccum)
        | none => acc
      else acc
    if stage_names.isEmpty && !(acc2.by_stage.any (fun kv => kv.1 == "__source__")) then
      none
    else
      some ⟨stage_names, acc2.stream_taps, acc2.save_sinks, acc2.by_stage⟩

/-! Concrete graphs used by the claims. -/

/-- Linear graph source → stageA → stageB → terminal (terminal-output sink). -/
def linNodes : List GraphNode :=
  [⟨"source", "source", none, some "camera", none, none⟩,
   ⟨"stageA", "stage", some "preprocess_cpu", none, none, none⟩,
   ⟨"stageB", "stage", some "detect_apriltag_cpu", none, none, none⟩,
   ⟨"terminal", "sink", none, none, some "svt_output", none⟩]

/-- Edges of the linear graph. -/
def linEdges : List GraphEdge :=
  [⟨"e1", "source", "frame", "stageA", "frame"⟩,
   ⟨"e2", "stageA", "frame", "stageB", "frame"⟩,
   ⟨"e3", "stageB", "frame", "terminal", "frame"⟩]

/-- Two-node graph source → streamTapNode (no terminal sink). -/
def tapOnlyNodes : List GraphNode :=
  [⟨"source", "source", none, some "camera", none, none⟩,
   ⟨"streamTapNode", "sink", none, none, some "stream_tap", none⟩]

/-- Edge of the two-node graph. -/
def tapOnlyEdges : List GraphEdge :=
  [⟨"e1", "source", "frame", "streamTapNode", "frame"⟩]

/-- Linear graph extended with a stream-tap sink fed from stageA. -/
def linTapNodes : List GraphNode :=
  linNodes ++ [⟨"streamTapNode", "sink", none, none, some "stream_tap", none⟩]

/-- Edges of the extended linear graph. -/
def linTapEdges : List GraphEdge :=
  linEdges ++ [⟨"e4", "stageA", "frame", "streamTapNode", "frame"⟩]

/-- Diamond graph: src → X directly and src → A → X, with X feeding a
stream tap.  Both paths are port-legal because X has two distinct input
ports. -/
def diaNodes : List GraphNode :=
  [⟨"src", "source", none, some "camera", none, none⟩,
   ⟨"A", "stage", some "preprocess_cpu", none, none, none⟩,
   ⟨"X", "stage", some "detect_apriltag_cpu", none, none, none⟩,
   ⟨"tap", "sink", none, none, some "stream_tap", none⟩]

/-- Edges of the diamond graph; the direct edge src → X is listed first, so
the compiler's DFS discovers the two-node path before the three-node one. -/
def diaEdges : List GraphEdge :=
  [⟨"e1", "src", "frame", "X", "in1"⟩,
   ⟨"e2", "src", "frame", "A", "frame"⟩,
   ⟨"e3", "A", "frame", "X", "in2"⟩,
   ⟨"e4", "X", "frame", "tap", "frame"⟩]

/-- C5: compiling the linear graph source → stageA → stageB → terminal yields
`main_path = [source, stageA, stageB, terminal]` and no side taps. -/
theorem C5_compile_linear_chain :
    compile_graph linNodes linEdges =
      Except.ok
        ⟨["source", "stageA", "stageB", "terminal"], [],
          [("source", []), ("stageA", []), ("stageB", []), ("terminal", [])]⟩ := by
  rfl

/-- C1 (counterexample): on a freshly opened camera, enqueueing frame `0` and
then frame `1` with no intervening consume leaves BOTH frames in the raw
queue (`deque(maxlen=5)` in the source) and leaves `frames_dropped` at `0`,
refuting "the slot holds exactly the second frame" and "frames_dropped is
incremented by exactly one". -/
theorem C1_counterexample :
    ((enqueue_raw_frame ((enqueue_raw_frame (camInit (F := Nat)) 0 5).1) 1 6).1.raw_frame_queue
        = [0, 1] ∧
      (enqueue_raw_frame ((enqueue_raw_frame (camInit (F := Nat)) 0 5).1) 1 6).1.frames_dropped
        = 0) ∧
    ¬ ((enqueue_raw_frame ((enqueue_raw_frame (camInit (F := Nat)) 0 5).1) 1 6).1.raw_frame_queue
        = [1]) ∧
    ¬ ((enqueue_raw_frame ((enqueue_raw_frame (camInit (F := Nat)) 0 5).1) 1 6).1.frames_dropped
        = 1) := by
  decide

/-- C1 (amended): the raw frame queue has capacity 5 with drop-oldest
semantics.  Enqueueing two frames into an empty queue keeps both (in order)
and leaves `frames_dropped` unchanged; enqueueing into a full queue evicts
the oldest frame and increments `frames_dropped` by exactly one. -/
theorem C1_enqueue_raw_frame_capacity5 {F : Type} (st : CamState F)
    (f1 f2 : F) (t1 t2 : Nat) (hq : st.raw_frame_queue = []) :
    ((enqueue_raw_frame (enqueue_raw_frame st f1 t1).1 f2 t2).1.raw_frame_queue = [f1, f2] ∧
      (enqueue_raw_frame (enqueue_raw_frame st f1 t1).1 f2 t2).1.frames_dropped =
        st.frames_dropped) ∧
    (∀ (st' : CamState F) (f : F) (t : Nat),
      st'.raw_frame_queue.length = RAW_QUEUE_MAXLEN →
        (enqueue_raw_frame st' f t).1.raw_frame_queue =
            st'.raw_frame_queue.drop 1 ++ [f] ∧
          (enqueue_raw_frame st' f t).1.frames_dropped = st'.frames_dropped + 1) := by
  constructor
  · simp [enqueue_raw_frame, dequePushN, hq, RAW_QUEUE_MAXLEN]
  · intro st' f t hlen
    have hne : st'.raw_frame_queue ≠ [] := by
      intro h
      rw [h] at hlen
      simp [RAW_QUEUE_MAXLEN] at hlen
    obtain ⟨a, as, hq'⟩ := List.exists_cons_of_ne_nil hne
    have h4 : as.length = 4 := by
      rw [hq'] at hlen
      simpa [RAW_QUEUE_MAXLEN] using hlen
    constructor
    · simp [enqueue_raw_frame, dequePushN, hq', h4, RAW_QUEUE_MAXLEN]
    · simp [enqueue_raw_frame, dequePushN, hq', h4, RAW_QUEUE_MAXLEN]

/-- C1 (witness): the amended theorem applied to the fresh camera state and
frames 0, 1 over `F := Nat`. -/
theorem C1_enqueue_raw_frame_capacity5_witness :
    ((enqueue_raw_frame (enqueue_raw_frame (camInit (F := Nat)) 0 5).1 1 6).1.raw_frame_queue
        = [0, 1] ∧
      (enqueue_raw_frame (enqueue_raw_frame (camInit (F := Nat)) 0 5).1 1 6).1.frames_dropped
        = (camInit (F := Nat)).frames_dropped) ∧
    (∀ (st' : CamState Nat) (f t : Nat),
      st'.raw_frame_queue.length = RAW_QUEUE_MAXLEN →
        (enqueue_raw_frame st' f t).1.raw_frame_queue =
            st'.raw_frame_queue.drop 1 ++ [f] ∧
          (enqueue_raw_frame st' f t).1.frames_dropped = st'.frames_dropped + 1) :=
  C1_enqueue_raw_frame_capacity5 (camInit (F := Nat)) 0 1 5 6 rfl

/-! Claim C3: reporting of the source-node count. -/

/-- Helper: a list is a Boolean prefix of itself followed by anything. -/
theorem isPrefixOf_self_append {α : Type} [BEq α] [LawfulBEq α] (p r : List α) :
    p.isPrefixOf (p ++ r) = true := by
  induction p with
  | nil => simp [List.isPrefixOf]
  | cons x xs ih => simp [List.isPrefixOf, ih]

/-- Helper: `infixOfB` finds a pattern standing at the front. -/
theorem infixOfB_self_append {α : Type} [BEq α] [LawfulBEq α] (p b : List α) :
    infixOfB p (p ++ b) = true := by
  cases p with
  | nil =>
    cases b with
    | nil => simp [infixOfB]
    | cons y ys => simp [infixOfB, List.isPrefixOf]
  | cons x xs =>
    show infixOfB (x :: xs) (x :: (xs ++ b)) = true
    simp [infixOfB, isPrefixOf_self_append]

/-- Helper: `infixOfB` finds a pattern standing anywhere. -/
theorem infixOfB_middle {α : Type} [BEq α] [LawfulBEq α] (a p b : List α) :
    infixOfB p (a ++ (p ++ b)) = true := by
  induction a with
  | nil => simpa using infixOfB_self_append p b
  | cons x xs ih =>
    show infixOfB p (x :: (xs ++ (p ++ b))) = true
    simp [infixOfB, ih]

/-- Message produced by `validate_single_source` when more than one source
node exists. -/
def srcCountMsg (g : PipelineGraph) : String :=
  "Graph must have exactly one source; found " ++ toString g.get_sources.length ++
    ": " ++ toString (g.get_sources.map (·.id))

/-- Message produced by `validate_single_source` when no source node exists. -/
def noSourceMsg : String :=
  "Graph must have exactly one source node (CameraSource, VideoFileSource, or ImageFileSource)"

/-- Graph with zero source nodes (a single stage node). -/
def zeroSrcGraph : PipelineGraph :=
  ⟨[⟨"a", "stage", some "preprocess_cpu", none, none, none⟩], []⟩

/-- Graph with two source nodes. -/
def twoSrcGraph : PipelineGraph :=
  ⟨[⟨"a", "source", none, some "camera", none, none⟩,
    ⟨"b", "source", none, some "camera", none, none⟩], []⟩

/-- C3 (counterexample): on a graph with zero source nodes, validation does
fail, but the error message ("Graph must have exactly one source node
(CameraSource, VideoFileSource, or ImageFileSource)") does not name the
number of source nodes found (the digit 0 appears nowhere in it), refuting
"the resulting error message names the number of source nodes found". -/
theorem C3_counterexample :
    zeroSrcGraph.get_sources.length = 0 ∧
    validate_single_source zeroSrcGraph = (false, [noSourceMsg]) ∧
    namesCount noSourceMsg 0 = false := by
  decide

/-- C3 (amended): for a graph with zero or at least two source nodes,
validation fails; with at least two sources the single error message names
the number of source nodes found, while with zero sources the error is the
fixed requires-exactly-one message, which does not include the count. -/
theorem C3_source_count_errors (g : PipelineGraph)
    (h : g.get_sources.length = 0 ∨ 2 ≤ g.get_sources.length) :
    (validate_single_source g).1 = false ∧
    (g.get_sources.length = 0 → validate_single_source g = (false, [noSourceMsg])) ∧
    (2 ≤ g.get_sources.length →
      validate_single_source g = (false, [srcCountMsg g]) ∧
      namesCount (srcCountMsg g) g.get_sources.length = true) := by
  refine ⟨?_, ?_, ?_⟩
  · rcases h with h0 | h2
    · simp [validate_single_source, h0]
    · have hne : g.get_sources.length ≠ 0 := by omega
      have hgt : 1 < g.get_sources.length := by omega
      simp [validate_single_source, hne, hgt]
  · intro h0
    simp [validate_single_source, h0, noSourceMsg]
  · intro h2
    have hne : g.get_sources.length ≠ 0 := by omega
    have hgt : 1 < g.get_sources.length := by omega
    constructor
    · simp [validate_single_source, hne, hgt, srcCountMsg]
    · unfold namesCount srcCountMsg
      rw [String.data_append, String.data_append, String.data_append]
      rw [List.append_assoc, List.append_assoc]
      exact infixOfB_middle _ _ _

/-- C3 (witness): the amended theorem applied to the concrete two-source
graph. -/
theorem C3_source_count_errors_witness :
    (2 ≤ twoSrcGraph.get_sources.length) ∧
    ((validate_single_source twoSrcGraph).1 = false ∧
      (twoSrcGraph.get_sources.length = 0 →
        validate_single_source twoSrcGraph = (false, [noSourceMsg])) ∧
      (2 ≤ twoSrcGraph.get_sources.length →
        validate_single_source twoSrcGraph = (false, [srcCountMsg twoSrcGraph]) ∧
        namesCount (srcCountMsg twoSrcGraph) twoSrcGraph.get_sources.length = true)) :=
  ⟨by decide, C3_source_count_errors twoSrcGraph (Or.inr (by decide))⟩

/-! Claim C4: `validate_graph` collects the errors of all three checks. -/

/-- Helper: the DFS of the cycle check returns an empty error list exactly
when it succeeds (statement for both mutual functions, by fuel induction). -/
theorem dagDfs_errs (out : String → List String) (nodeIds : List String) :
    ∀ fuel : Nat,
      (∀ c nid,
        ((dagDfs out nodeIds fuel c nid).2.1 = true →
          (dagDfs out nodeIds fuel c nid).2.2 = []) ∧
        ((dagDfs out nodeIds fuel c nid).2.1 = false →
          (dagDfs out nodeIds fuel c nid).2.2 ≠ [])) ∧
      (∀ c ts,
        ((dagDfsFold out nodeIds fuel c ts).2.1 = true →
          (dagDfsFold out nodeIds fuel c ts).2.2 = []) ∧
        ((dagDfsFold out nodeIds fuel c ts).2.1 = false →
          (dagDfsFold out nodeIds fuel c ts).2.2 ≠ [])) := by
  intro fuel
  induction fuel with
  | zero =>
    constructor
    · intro c nid
      simp [dagDfs]
    · intro c ts
      simp [dagDfsFold]
  | succ n ih =>
    constructor
    · intro c nid
      show ((dagDfs out nodeIds (n + 1) c nid).2.1 = true → _) ∧ _
      unfold dagDfs
      cases hcol : c nid with
      | gray => simp
      | black => simp
      | white =>
        rcases hf : dagDfsFold out nodeIds n (setColor c nid Color.gray) (out nid)
          with ⟨c2, b, errs⟩
        cases b with
        | true => simp
        | false =>
          have := (ih.2 (setColor c nid Color.gray) (out nid)).2
          rw [hf] at this
          simpa using this rfl
    · intro c ts
      cases ts with
      | nil => simp [dagDfsFold]
      | cons t rest =>
        unfold dagDfsFold
        cases hc : nodeIds.contains t with
        | false =>
          simpa using ih.2 c rest
        | true =>
          simp only [if_true]
          rcases hd : dagDfs out nodeIds n c t with ⟨c2, b, errs⟩
          cases b with
          | true =>
            simpa [hd] using ih.2 c2 rest
          | false =>
            have hne := (ih.1 c t).2
            rw [hd] at hne
            simpa [hd] using hne rfl

/-- Helper: the outer loop of `validate_dag` returns an empty error list
exactly when it succeeds. -/
theorem dagLoop_errs (out : String → List String) (nodeIds : List String)
    (fuel : Nat) :
    ∀ (l : List String) (c : String → Color),
      ((dagLoop out nodeIds fuel l c).1 = true →
        (dagLoop out nodeIds fuel l c).2 = []) ∧
      ((dagLoop out nodeIds fuel l c).1 = false →
        (dagLoop out nodeIds fuel l c).2 ≠ []) := by
  intro l
  induction l with
  | nil =>
    intro c
    simp [dagLoop]
  | cons nid rest ih =>
    intro c
    unfold dagLoop
    cases hcol : c nid with
    | gray => exact ih c
    | black => exact ih c
    | white =>
      rcases hd : dagDfs out nodeIds fuel c nid with ⟨c2, b, errs⟩
      cases b with
      | true => simpa using ih c2
      | false =>
        have := ((dagDfs_errs out nodeIds fuel).1 c nid).2
        rw [hd] at this
        simpa using this rfl

/-- Helper: `validate_dag` succeeds exactly when its error list is empty. -/
theorem validate_dag_ok_iff (g : PipelineGraph) :
    (validate_dag g).1 = true ↔ (validate_dag g).2 = [] := by
  have h := dagLoop_errs g.outgoing g.nodeIds (graphFuel g) g.nodeIds
    (fun _ => Color.white)
  unfold validate_dag
  constructor
  · exact h.1
  · intro he
    cases hb : (dagLoop g.outgoing g.nodeIds (graphFuel g) g.nodeIds
        (fun _ => Color.white)).1 with
    | true => rfl
    | false => exact absurd he (h.2 hb)

/-- Helper: `validate_single_source` succeeds exactly when its error list is
empty. -/
theorem validate_single_source_ok_iff (g : PipelineGraph) :
    (validate_single_source g).1 = true ↔ (validate_single_source g).2 = [] := by
  simp only [validate_single_source]
  split_ifs <;> simp

/-- Helper: `validate_single_input_per_port` succeeds exactly when its error
list is empty. -/
theorem validate_port_ok_iff (g : PipelineGraph) :
    (validate_single_input_per_port g).1 = true ↔
      (validate_single_input_per_port g).2 = [] := by
  simp [validate_single_input_per_port]

/-- C4: `validate_graph` runs all three checks; the raised error list is the
concatenation of the error messages produced by the DAG check, the
single-source check and the single-input-per-port check (none suppressed),
and nothing is raised exactly when all three checks pass. -/
theorem C4_validate_graph_collects_all (g : PipelineGraph) :
    validate_graph g =
      (if ((validate_dag g).2 ++ (validate_single_source g).2 ++
            (validate_single_input_per_port g).2).isEmpty
        then none
        else some ((validate_dag g).2 ++ (validate_single_source g).2 ++
          (validate_single_input_per_port g).2)) ∧
    (validate_graph g = none ↔
      (validate_dag g).1 = true ∧ (validate_single_source g).1 = true ∧
        (validate_single_input_per_port g).1 = true) := by
  have g1 : (if (validate_dag g).1 then [] else (validate_dag g).2) =
      (validate_dag g).2 := by
    cases h : (validate_dag g).1
    · rfl
    · simp [(validate_dag_ok_iff g).mp h]
  have g2 : (if (validate_single_source g).1 then [] else (validate_single_source g).2) =
      (validate_single_source g).2 := by
    cases h : (validate_single_source g).1
    · rfl
    · simp [(validate_single_source_ok_iff g).mp h]
  have g3 : (if (validate_single_input_per_port g).1 then []
        else (validate_single_input_per_port g).2) =
      (validate_single_input_per_port g).2 := by
    cases h : (validate_single_input_per_port g).1
    · rfl
    · simp [(validate_port_ok_iff g).mp h]
  have hvg : validate_graph g =
      (if ((validate_dag g).2 ++ (validate_single_source g).2 ++
            (validate_single_input_per_port g).2).isEmpty
        then none
        else some ((validate_dag g).2 ++ (validate_single_source g).2 ++
          (validate_single_input_per_port g).2)) := by
    simp only [validate_graph]
    rw [g1, g2, g3]
  refine ⟨hvg, ?_⟩
  rw [hvg]
  constructor
  · intro h
    by_cases hc : ((validate_dag g).2 ++ (validate_single_source g).2 ++
        (validate_single_input_per_port g).2).isEmpty = true
    · have hnil := List.isEmpty_iff.mp hc
      have h12 := (List.append_eq_nil.mp hnil).1
      have h3 := (List.append_eq_nil.mp hnil).2
      have h1 := (List.append_eq_nil.mp h12).1
      have h2 := (List.append_eq_nil.mp h12).2
      exact ⟨(validate_dag_ok_iff g).mpr h1,
        (validate_single_source_ok_iff g).mpr h2, (validate_port_ok_iff g).mpr h3⟩
    · rw [if_neg hc] at h
      cases h
  · rintro ⟨o1, o2, o3⟩
    rw [(validate_dag_ok_iff g).mp o1, (validate_single_source_ok_iff g).mp o2,
      (validate_port_ok_iff g).mp o3]
    simp

/-! Claim C2: behaviour of the stage loop when a stage returns no frame. -/

/-- Helper: the stage loop splits over list concatenation; an exception or
the preprocess abort in the first part short-circuits the second. -/
theorem runStages_append {F : Type} (l1 l2 : List (PStage F)) :
    ∀ (frame : Option F) (ctx : PipeCtx F) (st : PipelineState F)
      (tr : List (StageCall F)),
      runStages (l1 ++ l2) frame ctx st tr =
        match runStages l1 frame ctx st tr with
        | LoopOut.finished st2 f2 c2 t2 => runStages l2 f2 c2 st2 t2
        | other => other := by
  induction l1 with
  | nil => intros; rfl
  | cons s rest ih =>
    intro frame ctx st tr
    simp only [List.cons_append, runStages]
    rcases hp : s.process (if s.name == "detect_overlay" then some ctx.raw_frame else frame)
        ctx with e | ⟨nf, c2⟩
    · rfl
    · cases nf with
      | none =>
        by_cases hn : (s.name == "preprocess") = true
        · simp [hn]
        · simp [hn, ih]
      | some f =>
        cases hl : dictLookup st.stage_frames s.name with
        | none => simp
        | some q => simp [ih]

/-- Stage used by the C2 counterexample: returns no frame but is not named
preprocess. -/
def c2StageS1 : PStage Nat := ⟨"s1", fun _ c => Except.ok (none, c)⟩

/-- Stage used by C2: always returns frame 7. -/
def c2StageS2 : PStage Nat := ⟨"s2", fun _ c => Except.ok (some 7, c)⟩

/-- Preprocess stage whose port always reports failure (returns no frame). -/
def c2Preprocess : PStage Nat := preprocessStage (fun _ => Except.ok none)

/-- C2 (counterexample): with the chain [s1, s2] where s1 returns no frame,
`process_frame` does NOT abort: the later stage s2 is still invoked (it
appears in the invocation trace) and its entry in the returned dict is a
frame, not `None`.  Only a stage named "preprocess" triggers the abort. -/
theorem C2_counterexample :
    ((processFrame [c2StageS1, c2StageS2] id
        (pipelineInit [c2StageS1, c2StageS2]) 1 0).2.2.map StageCall.name =
      ["s1", "s2"]) ∧
    dictLookup (processFrame [c2StageS1, c2StageS2] id
        (pipelineInit [c2StageS1, c2StageS2]) 1 0).2.1.stage_out "s2" =
      some (some ⟨"s2", 7⟩) ∧
    ¬ (dictLookup (processFrame [c2StageS1, c2StageS2] id
        (pipelineInit [c2StageS1, c2StageS2]) 1 0).2.1.stage_out "s2" =
      some none) := by
  decide

/-- C2 (amended): only the stage named "preprocess" aborts the chain.  If the
loop reaches a preprocess stage that returns no frame, the remaining stages
are never invoked (the result does not depend on them and the trace ends at
the preprocess call) and the call returns the partial dict
`{raw: the raw StageFrame, preprocess: None, detect_overlay: None,
detections: []}`.  A stage with any other name that returns no frame is
skipped and the loop continues (see the counterexample). -/
theorem C2_preprocess_abort {F : Type} (pre suf : List (PStage F))
    (pp : PStage F) (toGray : F → F) (st : PipelineState F) (raw : F) (now : Nat)
    (st2 : PipelineState F) (f2 : Option F) (c2 : PipeCtx F)
    (tr : List (StageCall F))
    (hpre : runStages pre (some (toGray raw)) ⟨raw, []⟩
        { st with raw_frames := dequePushN 3 st.raw_frames ⟨"raw", raw⟩ } [] =
      LoopOut.finished st2 f2 c2 tr)
    (hname : pp.name = "preprocess")
    (hfail : ∃ c3, pp.process f2 c2 = Except.ok (none, c3)) :
    processFrame (pre ++ pp :: suf) toGray st raw now =
      (st2,
        ⟨some ⟨"raw", raw⟩, [], [("preprocess", none), ("detect_overlay", none)]⟩,
        tr ++ [⟨"preprocess", f2, c2⟩]) := by
  obtain ⟨c3, hf⟩ := hfail
  have hstep : runStages (pp :: suf) f2 c2 st2 tr =
      LoopOut.aborted st2 (tr ++ [⟨pp.name, f2, c2⟩]) := by
    have harg : (pp.name == "detect_overlay") = false := by simp [hname]
    have hpp : (pp.name == "preprocess") = true := by simp [hname]
    simp only [runStages, harg, if_false, Bool.false_eq_true]
    rw [hf]
    simp [hpp]
  simp only [processFrame]
  rw [runStages_append, hpre]
  simp only
  rw [hstep, hname]

/-- C2 (witness): the amended theorem applied to the concrete chain
[failing preprocess, s2] on frame 1. -/
theorem C2_preprocess_abort_witness :
    processFrame [c2Preprocess, c2StageS2] id
        (pipelineInit [c2Preprocess, c2StageS2]) 1 0 =
      ({ pipelineInit [c2Preprocess, c2StageS2] with
          raw_frames := [⟨"raw", 1⟩] },
        ⟨some ⟨"raw", 1⟩, [], [("preprocess", none), ("detect_overlay", none)]⟩,
        [⟨"preprocess", some 1, ⟨1, []⟩⟩]) :=
  C2_preprocess_abort [] [c2StageS2] c2Preprocess id
    (pipelineInit [c2Preprocess, c2StageS2]) 1 0
    { pipelineInit [c2Preprocess, c2StageS2] with raw_frames := [⟨"raw", 1⟩] }
    (some 1) ⟨1, []⟩ [] rfl rfl ⟨⟨1, []⟩, rfl⟩

/-! Claim C10: `process_frame` never propagates an exception. -/

/-- Helper: unfolding of `dictInsert` on a cons cell. -/
theorem dictInsert_cons {κ α : Type} [BEq κ] (a : κ × α) (m : List (κ × α))
    (k : κ) (v : α) :
    dictInsert (a :: m) k v =
      if (a.1 == k) = true then
        (k, v) :: m.map (fun kv => if (kv.1 == k) = true then (k, v) else kv)
      else a :: dictInsert m k v := by
  by_cases h : (a.1 == k) = true
  · simp [dictInsert, h]
  · by_cases h2 : m.any (fun kv => kv.1 == k) = true
    · simp [dictInsert, h, h2]
    · simp [dictInsert, h, h2]

/-- Helper: unfolding of `dictLookup` on a cons cell. -/
theorem dictLookup_cons {κ α : Type} [BEq κ] (x : κ × α) (l : List (κ × α))
    (k' : κ) :
    dictLookup (x :: l) k' =
      if (x.1 == k') = true then some x.2 else dictLookup l k' := by
  by_cases h : (x.1 == k') = true
  · simp [dictLookup, List.find?, h]
  · simp [dictLookup, List.find?, h]

/-- Helper: replacing the entries at key `k` does not change lookups at a
different key. -/
theorem dictLookup_map_replace {κ α : Type} [BEq κ] [LawfulBEq κ]
    (m : List (κ × α)) (k k' : κ) (v : α) (hk : (k == k') = false) :
    dictLookup (m.map (fun kv => if (kv.1 == k) = true then (k, v) else kv)) k' =
      dictLookup m k' := by
  induction m with
  | nil => rfl
  | cons a m ih =>
    show dictLookup ((if (a.1 == k) = true then (k, v) else a) ::
      m.map (fun kv => if (kv.1 == k) = true then (k, v) else kv)) k' = _
    rw [dictLookup_cons, dictLookup_cons]
    by_cases h : (a.1 == k) = true
    · have h1 : (a.1 == k') = false := by
        cases hh : a.1 == k' with
        | false => rfl
        | true =>
          rw [eq_of_beq h] at hh
          rw [hh] at hk
          cases hk
      rw [if_pos h]
      simp only [hk, h1, Bool.false_eq_true, if_false]
      exact ih
    · rw [if_neg h]
      by_cases h1 : (a.1 == k') = true
      · simp only [h1, if_true]
      · simp only [h1, Bool.false_eq_true, if_false]
        exact ih

/-- Helper: lookup after a Python-style dict assignment. -/
theorem dictLookup_dictInsert {κ α : Type} [BEq κ] [LawfulBEq κ]
    (m : List (κ × α)) (k k' : κ) (v : α) :
    dictLookup (dictInsert m k v) k' =
      if (k == k') = true then some v else dictLookup m k' := by
  induction m with
  | nil =>
    by_cases h : (k == k') = true
    · simp [dictInsert, dictLookup, List.find?, h]
    · simp [dictInsert, dictLookup, List.find?, h]
  | cons a m ih =>
    rw [dictInsert_cons]
    by_cases h : (a.1 == k) = true
    · rw [if_pos h, dictLookup_cons]
      by_cases hk : (k == k') = true
      · simp [hk]
      · have h1 : (a.1 == k') = false := by
          cases hh : a.1 == k' with
          | false => rfl
          | true =>
            rw [eq_of_beq h] at hh
            rw [hh] at hk
            cases hk rfl
        have hkf : (k == k') = false := by
          cases hh : k == k' with
          | false => rfl
          | true => exact absurd hh hk
        rw [dictLookup_cons]
        simp only [hkf, h1, Bool.false_eq_true, if_false]
        exact dictLookup_map_replace m k k' v hkf
    · rw [if_neg h, dictLookup_cons, ih]
      by_cases h1 : (a.1 == k') = true
      · have hkf : (k == k') = false := by
          cases hh : k == k' with
          | false => rfl
          | true =>
            rw [eq_of_beq h1, eq_of_beq hh] at h
            simp at h
        rw [dictLookup_cons]
        simp only [h1, if_true, hkf, Bool.false_eq_true, if_false]
      · rw [dictLookup_cons]
        simp only [h1, Bool.false_eq_true, if_false]

/-- Helper: folding further `None` assignments keeps an existing
`some none` entry. -/
theorem foldNone_keeps {F : Type} (rest : List (PStage F)) :
    ∀ (m : List (String × Option (StageFrame F))) (k : String),
      dictLookup m k = some none →
      dictLookup (rest.foldl (fun m s => dictInsert m s.name none) m) k =
        some none := by
  induction rest with
  | nil => intro m k h; exact h
  | cons s rs ih =>
    intro m k h
    apply ih
    rw [dictLookup_dictInsert]
    by_cases hs : (s.name == k) = true
    · simp [hs]
    · simp [hs, h]

/-- Helper: in the fallback dict every configured stage name maps to
`None`. -/
theorem fallback_fold_lookup {F : Type} (stages : List (PStage F)) :
    ∀ (acc : List (String × Option (StageFrame F))), ∀ s ∈ stages,
      dictLookup (stages.foldl (fun m s => dictInsert m s.name none) acc) s.name =
        some none := by
  induction stages with
  | nil => intro acc s hs; cases hs
  | cons t rest ih =>
    intro acc s hs
    rcases List.mem_cons.mp hs with rfl | hs'
    · show dictLookup (rest.foldl _ (dictInsert acc s.name none)) s.name = some none
      apply foldNone_keeps
      rw [dictLookup_dictInsert]
      simp
    · exact ih (dictInsert acc t.name none) s hs'

/-- C10: `process_frame` is total at its interface.  If the stage loop raises
(any stage's `process` throwing, or the `KeyError` on a missing frame-buffer
key), or the result-building loop raises, the exception is swallowed and the
returned dict maps `raw` to `None`, every configured stage name to `None`,
and `detections` to the empty list. -/
theorem C10_process_frame_total {F : Type} (stages : List (PStage F))
    (toGray : F → F) (st : PipelineState F) (raw : F) (now : Nat) :
    (∀ st2 tr,
      runStages stages (some (toGray raw)) ⟨raw, []⟩
          { st with raw_frames := dequePushN 3 st.raw_frames ⟨"raw", raw⟩ } [] =
        LoopOut.raised st2 tr →
      (processFrame stages toGray st raw now).2.1 = fallbackResult stages) ∧
    (∀ (raw_stage : StageFrame F) (st2 : PipelineState F) (c2 : PipeCtx F)
        (tr : List (StageCall F)),
      buildStageOut (postLoopState st2 c2 now).stage_frames stages [] = none →
      (finishFrame stages raw_stage st2 c2 now tr).2.1 = fallbackResult stages) ∧
    ((fallbackResult stages).raw = none ∧
      (fallbackResult stages).detections = [] ∧
      ∀ s ∈ stages,
        dictLookup (fallbackResult stages).stage_out s.name = some none) := by
  refine ⟨?_, ?_, rfl, rfl, fun s hs => fallback_fold_lookup stages [] s hs⟩
  · intro st2 tr h
    simp [processFrame, h]
  · intro raw_stage st2 c2 tr hb
    simp [finishFrame, hb]

/-- Stage whose `process` always raises, used by the C10 witness. -/
def c10Boom : PStage Nat := ⟨"boom", fun _ _ => Except.error ()⟩

/-- C10 (witness): the totality theorem applied to the chain containing one
always-raising stage, on frame 3. -/
theorem C10_process_frame_total_witness :
    (processFrame [c10Boom] id (pipelineInit [c10Boom]) 3 0).2.1 =
      fallbackResult [c10Boom] ∧
    (fallbackResult [c10Boom]).raw = none ∧
    (fallbackResult [c10Boom]).detections = [] ∧
    ∀ s ∈ [c10Boom],
      dictLookup (fallbackResult [c10Boom]).stage_out s.name = some none :=
  ⟨(C10_process_frame_total [c10Boom] id (pipelineInit [c10Boom]) 3 0).1
      { pipelineInit [c10Boom] with raw_frames := [⟨"raw", 3⟩] }
      [⟨"boom", some 3, ⟨3, []⟩⟩] rfl,
    (C10_process_frame_total [c10Boom] id (pipelineInit [c10Boom]) 3 0).2.2⟩

/-! Claim C9: the detect stage fills the context, the overlay stage draws on
the original raw frame. -/

/-- Trace component of a stage-loop outcome. -/
def loopTrace {F : Type} : LoopOut F → List (StageCall F)
  | LoopOut.raised _ tr => tr
  | LoopOut.aborted _ tr => tr
  | LoopOut.finished _ _ _ tr => tr

/-- Helper: each of the three built-in stages leaves `raw_frame` in the
context untouched. -/
theorem builtin_preserves_raw {F : Type} (s : PStage F) (hb : IsBuiltin s)
    (arg : Option F) (c : PipeCtx F) (nf : Option F) (c2 : PipeCtx F)
    (h : s.process arg c = Except.ok (nf, c2)) : c2.raw_frame = c.raw_frame := by
  rcases hb with ⟨pre, rfl⟩ | ⟨det, rfl⟩ | ⟨draw, rfl⟩
  · simp only [preprocessStage] at h
    cases hp : pre arg with
    | error e => rw [hp] at h; cases h
    | ok out =>
      rw [hp] at h
      cases h
      rfl
  · simp only [detectStage] at h
    cases hp : det arg with
    | error e => rw [hp] at h; cases h
    | ok ds =>
      rw [hp] at h
      cases h
      rfl
  · simp only [overlayStage] at h
    cases hp : draw c.raw_frame c.detections with
    | error e => rw [hp] at h; cases h
    | ok ov =>
      rw [hp] at h
      cases h
      rfl

/-- Helper: over a chain of built-in stages the context's `raw_frame` never
changes, so every recorded invocation sees it, and every invocation of a
stage named `detect_overlay` receives it as the frame argument. -/
theorem runStages_trace_raw {F : Type} (r : F) :
    ∀ (stages : List (PStage F)), (∀ s ∈ stages, IsBuiltin s) →
    ∀ (frame : Option F) (ctx : PipeCtx F) (st : PipelineState F)
      (tr : List (StageCall F)),
      ctx.raw_frame = r →
      (∀ call ∈ tr, call.ctx.raw_frame = r ∧
        (call.name = "detect_overlay" → call.arg = some r)) →
      ∀ call ∈ loopTrace (runStages stages frame ctx st tr),
        call.ctx.raw_frame = r ∧
          (call.name = "detect_overlay" → call.arg = some r) := by
  intro stages
  induction stages with
  | nil =>
    intro _ frame ctx st tr _ htr call hc
    exact htr call hc
  | cons s rest ih =>
    intro hb frame ctx st tr hctx htr
    have hbs : IsBuiltin s := hb s (List.mem_cons_self s rest)
    have hbr : ∀ t ∈ rest, IsBuiltin t := fun t ht => hb t (List.mem_cons_of_mem s ht)
    have hcall : ∀ call ∈ tr ++
        [(⟨s.name, if s.name == "detect_overlay" then some ctx.raw_frame else frame,
          ctx⟩ : StageCall F)],
        call.ctx.raw_frame = r ∧ (call.name = "detect_overlay" → call.arg = some r) := by
      intro call hc
      rcases List.mem_append.mp hc with hmem | hmem
      · exact htr call hmem
      · rcases List.mem_singleton.mp hmem with rfl
        refine ⟨hctx, fun hn => ?_⟩
        have hn' : s.name = "detect_overlay" := hn
        have hbeq : (s.name == "detect_overlay") = true := by simp [hn']
        show (if (s.name == "detect_overlay") = true then some ctx.raw_frame else frame) =
          some r
        simp [hbeq, hctx]
    simp only [runStages]
    rcases hp : s.process (if s.name == "detect_overlay" then some ctx.raw_frame else frame)
        ctx with e | ⟨nf, c2⟩
    · simpa [loopTrace] using hcall
    · have hc2 : c2.raw_frame = r := by
        rw [builtin_preserves_raw s hbs _ ctx nf c2 hp]
        exact hctx
      cases nf with
      | none =>
        by_cases hn : (s.name == "preprocess") = true
        · simpa [hn, loopTrace] using hcall
        · simpa [hn] using ih hbr none c2 st _ hc2 hcall
      | some f =>
        cases hl : dictLookup st.stage_frames s.name with
        | none => simpa [loopTrace] using hcall
        | some q => simpa using ih hbr (some f) c2 _ _ hc2 hcall

/-- Helper: the trace returned by `processFrame` is the stage-loop trace. -/
theorem processFrame_trace {F : Type} (stages : List (PStage F)) (toGray : F → F)
    (st : PipelineState F) (raw : F) (now : Nat) :
    (processFrame stages toGray st raw now).2.2 =
      loopTrace (runStages stages (some (toGray raw)) ⟨raw, []⟩
        { st with raw_frames := dequePushN 3 st.raw_frames ⟨"raw", raw⟩ } []) := by
  rcases h : runStages stages (some (toGray raw)) ⟨raw, []⟩
      { st with raw_frames := dequePushN 3 st.raw_frames ⟨"raw", raw⟩ } [] with
    ⟨st2, tr⟩ | ⟨st2, tr⟩ | ⟨st2, f2, c2, tr⟩
  · simp [processFrame, h, loopTrace]
  · simp [processFrame, h, loopTrace]
  · simp only [processFrame, h, loopTrace]
    rcases hb : buildStageOut (postLoopState st2 c2 now).stage_frames stages [] with
      _ | so
    · simp [finishFrame, hb]
    · simp [finishFrame, hb]

/-- C9: over a pipeline whose stages are the built-in adapters, (a) every
invocation of the `detect_overlay` stage receives the original raw input
frame (not the preprocessed loop frame) and sees the context's unchanged
`raw_frame`; (b) the detect stage stores its detector's detections into the
shared context; (c) the overlay stage draws the context's detections onto
the context's raw frame. -/
theorem C9_overlay_on_raw_frame {F : Type} (stages : List (PStage F))
    (hb : ∀ s ∈ stages, IsBuiltin s) (toGray : F → F) (st : PipelineState F)
    (raw : F) (now : Nat) :
    (∀ call ∈ (processFrame stages toGray st raw now).2.2,
      call.ctx.raw_frame = raw ∧
        (call.name = "detect_overlay" → call.arg = some raw)) ∧
    (∀ (det : Option F → Except Unit (List TagDetection)) (f : Option F)
        (c : PipeCtx F) (ds : List TagDetection),
      det f = Except.ok ds →
        (detectStage det).process f c = Except.ok (f, { c with detections := ds })) ∧
    (∀ (draw : F → List TagDetection → Except Unit F) (f : Option F)
        (c : PipeCtx F) (ov : F),
      draw c.raw_frame c.detections = Except.ok ov →
        (overlayStage draw).process f c = Except.ok (some ov, c)) := by
  refine ⟨?_, ?_, ?_⟩
  · intro call hc
    rw [processFrame_trace] at hc
    exact runStages_trace_raw raw stages hb (some (toGray raw)) ⟨raw, []⟩
      { st with raw_frames := dequePushN 3 st.raw_frames ⟨"raw", raw⟩ } []
      rfl (by intro c hc2; cases hc2) call hc
  · intro det f c ds h
    simp [detectStage, h]
  · intro draw f c ov h
    simp [overlayStage, h]

/-- Built-in preprocess stage (identity behaviour) for the C9 witness. -/
def c9Pre : PStage Nat := preprocessStage (fun f => Except.ok f)

/-- Built-in detect stage (always reports tag 5) for the C9 witness. -/
def c9Det : PStage Nat := detectStage (fun _ => Except.ok [⟨5⟩])

/-- Built-in overlay stage (adds the detection count) for the C9 witness. -/
def c9Ov : PStage Nat := overlayStage (fun f ds => Except.ok (f + ds.length))

/-- C9 (witness): the theorem applied to the concrete built-in chain
preprocess → detect → detect_overlay on frame 3. -/
theorem C9_overlay_on_raw_frame_witness :
    (∀ call ∈ (processFrame [c9Pre, c9Det, c9Ov] (fun n => n * 10)
        (pipelineInit [c9Pre, c9Det, c9Ov]) 3 0).2.2,
      call.ctx.raw_frame = 3 ∧
        (call.name = "detect_overlay" → call.arg = some 3)) ∧
    (∀ (det : Option Nat → Except Unit (List TagDetection)) (f : Option Nat)
        (c : PipeCtx Nat) (ds : List TagDetection),
      det f = Except.ok ds →
        (detectStage det).process f c = Except.ok (f, { c with detections := ds })) ∧
    (∀ (draw : Nat → List TagDetection → Except Unit Nat) (f : Option Nat)
        (c : PipeCtx Nat) (ov : Nat),
      draw c.raw_frame c.detections = Except.ok ov →
        (overlayStage draw).process f c = Except.ok (some ov, c)) :=
  C9_overlay_on_raw_frame [c9Pre, c9Det, c9Ov]
    (by
      intro s hs
      simp only [List.mem_cons, List.not_mem_nil, or_false] at hs
      rcases hs with rfl | rfl | rfl
      · exact Or.inl ⟨_, rfl⟩
      · exact Or.inr (Or.inl ⟨_, rfl⟩)
      · exact Or.inr (Or.inr ⟨_, rfl⟩))
    (fun n => n * 10) (pipelineInit [c9Pre, c9Det, c9Ov]) 3 0

/-! Claim C7: side taps are exactly the main-path-fed edges into side-tap
sinks. -/

/-- Helper: `filterMap` keeps one output per input on which the function
fires. -/
theorem length_filterMap_eq_filter {α β : Type} (f : α → Option β)
    (l : List α) :
    (l.filterMap f).length = (l.filter (fun a => (f a).isSome)).length := by
  induction l with
  | nil => rfl
  | cons a l ih =>
    cases h : f a with
    | none => simp [List.filterMap_cons, h, ih]
    | some b => simp [List.filterMap_cons, h, ih]

/-- Helper: a successful compile returns `finishPlan` of some main path. -/
theorem compile_ok_finishPlan (nodes : List GraphNode) (edges : List GraphEdge)
    (plan : ExecutionPlan) (h : compile_graph nodes edges = Except.ok plan) :
    ∃ mp, plan = finishPlan ⟨nodes, edges⟩ mp := by
  cases hv : validate_graph ⟨nodes, edges⟩ with
  | some errs => simp [compile_graph, hv] at h
  | none =>
    cases hs : PipelineGraph.get_sources ⟨nodes, edges⟩ with
    | nil => simp [compile_graph, hv, hs] at h
    | cons source rest =>
      cases hsvt : find_svt_output ⟨nodes, edges⟩ with
      | some svt =>
        cases hp : find_path_dfs (PipelineGraph.outgoing ⟨nodes, edges⟩)
            (graphFuel ⟨nodes, edges⟩) source.id svt.id [] [] with
        | none => simp [compile_graph, hv, hs, hsvt, hp] at h
        | some path =>
          refine ⟨path, ?_⟩
          simp only [compile_graph, hv, hs, hsvt, hp, Except.ok.injEq] at h
          exact h.symm
      | none =>
        by_cases he : (sideTapEdges ⟨nodes, edges⟩
            (nodes_reachable_from (PipelineGraph.outgoing ⟨nodes, edges⟩)
              (graphFuel ⟨nodes, edges⟩) [source.id] [source.id])).isEmpty = true
        · simp [compile_graph, hv, hs, hsvt, he] at h
        · refine ⟨bestAttachPath (PipelineGraph.outgoing ⟨nodes, edges⟩)
            (graphFuel ⟨nodes, edges⟩) source.id
            (attachPoints (sideTapEdges ⟨nodes, edges⟩
              (nodes_reachable_from (PipelineGraph.outgoing ⟨nodes, edges⟩)
                (graphFuel ⟨nodes, edges⟩) [source.id] [source.id]))), ?_⟩
          simp only [compile_graph, hv, hs, hsvt, he, if_false, Bool.false_eq_true,
            Except.ok.injEq] at h
          exact h.symm

/-- Helper: what a produced `SideTap` record contains. -/
theorem sideTapOfEdge_some (g : PipelineGraph) (mp : List String)
    (e : GraphEdge) (stp : SideTap) (h : sideTapOfEdge g mp e = some stp) :
    stp.attach_point = e.source_node ∧ stp.node_id = e.target_node ∧
      mp.contains e.source_node = true := by
  unfold sideTapOfEdge at h
  cases hn : g.get_node e.target_node with
  | none => simp [hn] at h
  | some tn =>
    cases hst : tn.sink_type with
    | none => simp [hn, hst] at h
    | some st' =>
      simp only [hn, hst] at h
      by_cases hc : (SIDE_TAP_SINK_TYPES.contains st' &&
          mp.contains e.source_node) = true
      · rw [if_pos hc] at h
        cases h
        rw [Bool.and_eq_true] at hc
        exact ⟨rfl, rfl, hc.2⟩
      · rw [if_neg hc] at h; cases h

/-- Helper: edges whose source is off the main path yield no side tap. -/
theorem sideTapOfEdge_off_path (g : PipelineGraph) (mp : List String)
    (e : GraphEdge) (h : mp.contains e.source_node = false) :
    sideTapOfEdge g mp e = none := by
  unfold sideTapOfEdge
  cases hn : g.get_node e.target_node with
  | none => rfl
  | some tn =>
    cases hst : tn.sink_type with
    | none => simp [hst]
    | some st' =>
      simp only [hst]
      simp at h ⊢
      intro _
      exact h

/-- Execution plan of the linear graph extended with a stream tap. -/
def linTapPlan : ExecutionPlan :=
  ⟨["source", "stageA", "stageB", "terminal"],
    [⟨"streamTapNode", "stream_tap", "stageA", "frame", "frame"⟩],
    [("source", []), ("stageA", []), ("stageB", []), ("terminal", []),
      ("streamTapNode", [])]⟩

/-- C7: for every successful compile the side-tap list is exactly one
`SideTap` per edge whose target resolves to a side-tap-kind sink and whose
source lies on the main path, with `attach_point` the edge's source node;
edges from off-path nodes produce none.  In particular, adding the edge
stageA → streamTapNode to the compiled terminal chain yields exactly one
side tap attached to stageA. -/
theorem C7_side_taps_from_main_path :
    (∀ (nodes : List GraphNode) (edges : List GraphEdge) (plan : ExecutionPlan),
      compile_graph nodes edges = Except.ok plan →
      plan.side_taps =
          edges.filterMap (sideTapOfEdge ⟨nodes, edges⟩ plan.main_path) ∧
        plan.side_taps.length =
          (edges.filter
            (fun e => (sideTapOfEdge ⟨nodes, edges⟩ plan.main_path e).isSome)).length ∧
        (∀ stp ∈ plan.side_taps, ∃ e, e ∈ edges ∧
          sideTapOfEdge ⟨nodes, edges⟩ plan.main_path e = some stp ∧
          stp.attach_point = e.source_node ∧ stp.node_id = e.target_node ∧
          plan.main_path.contains e.source_node = true) ∧
        (∀ e ∈ edges, plan.main_path.contains e.source_node = false →
          sideTapOfEdge ⟨nodes, edges⟩ plan.main_path e = none)) ∧
    compile_graph linTapNodes linTapEdges = Except.ok linTapPlan := by
  constructor
  · intro nodes edges plan h
    obtain ⟨mp, rfl⟩ := compile_ok_finishPlan nodes edges plan h
    have hmp : (finishPlan ⟨nodes, edges⟩ mp).main_path = mp := rfl
    have hside : (finishPlan ⟨nodes, edges⟩ mp).side_taps =
        edges.filterMap (sideTapOfEdge ⟨nodes, edges⟩ mp) := rfl
    refine ⟨by rw [hmp, hside], ?_, ?_, ?_⟩
    · rw [hmp, hside]
      exact length_filterMap_eq_filter _ _
    · intro stp hstp
      rw [hside] at hstp
      obtain ⟨e, he, hfe⟩ := List.mem_filterMap.mp hstp
      obtain ⟨h1, h2, h3⟩ := sideTapOfEdge_some ⟨nodes, edges⟩ mp e stp hfe
      exact ⟨e, he, by rw [hmp]; exact hfe, h1, h2, by rw [hmp]; exact h3⟩
    · intro e _ hoff
      rw [hmp] at hoff
      rw [hmp]
      exact sideTapOfEdge_off_path ⟨nodes, edges⟩ mp e hoff
  · rfl

/-- C7 (witness): the general part applied to the concrete extended linear
graph. -/
theorem C7_side_taps_from_main_path_witness :
    linTapPlan.side_taps =
        linTapEdges.filterMap
          (sideTapOfEdge ⟨linTapNodes, linTapEdges⟩ linTapPlan.main_path) ∧
      linTapPlan.side_taps.length =
        (linTapEdges.filter
          (fun e =>
            (sideTapOfEdge ⟨linTapNodes, linTapEdges⟩ linTapPlan.main_path
              e).isSome)).length ∧
      (∀ stp ∈ linTapPlan.side_taps, ∃ e, e ∈ linTapEdges ∧
        sideTapOfEdge ⟨linTapNodes, linTapEdges⟩ linTapPlan.main_path e =
          some stp ∧
        stp.attach_point = e.source_node ∧ stp.node_id = e.target_node ∧
        linTapPlan.main_path.contains e.source_node = true) ∧
      (∀ e ∈ linTapEdges,
        linTapPlan.main_path.contains e.source_node = false →
        sideTapOfEdge ⟨linTapNodes, linTapEdges⟩ linTapPlan.main_path e = none) :=
  C7_side_taps_from_main_path.1 linTapNodes linTapEdges linTapPlan
    C7_side_taps_from_main_path.2

/-! Claim C8: the synthesized preview tap. -/

/-- Helper: a key that no entry carries is not found. -/
theorem dictLookup_none_of_any_false {κ α : Type} [BEq κ] (m : List (κ × α))
    (k : κ) (h : m.any (fun kv => kv.1 == k) = false) : dictLookup m k = none := by
  induction m with
  | nil => rfl
  | cons a m ih =>
    rw [List.any_cons, Bool.or_eq_false_iff] at h
    rw [dictLookup_cons]
    simp only [h.1, Bool.false_eq_true, if_false]
    exact ih h.2

/-- Helper: a key that some entry carries is found. -/
theorem dictLookup_some_of_any_true {κ α : Type} [BEq κ] (m : List (κ × α))
    (k : κ) (h : m.any (fun kv => kv.1 == k) = true) :
    ∃ l, dictLookup m k = some l := by
  induction m with
  | nil => cases h
  | cons a m ih =>
    rw [dictLookup_cons]
    by_cases ha : (a.1 == k) = true
    · exact ⟨a.2, by rw [if_pos ha]⟩
    · rw [List.any_cons] at h
      simp only [ha, Bool.false_or] at h
      simp only [ha, Bool.false_eq_true, if_false]
      exact ih h

/-- Helper: lookup distributes over append, first list first. -/
theorem dictLookup_append {κ α : Type} [BEq κ] (m1 m2 : List (κ × α)) (k : κ) :
    dictLookup (m1 ++ m2) k =
      match dictLookup m1 k with
      | some v => some v
      | none => dictLookup m2 k := by
  induction m1 with
  | nil => rfl
  | cons a m ih =>
    rw [List.cons_append, dictLookup_cons, dictLookup_cons]
    by_cases h : (a.1 == k) = true
    · simp [h]
    · simp only [h, Bool.false_eq_true, if_false]
      exact ih

/-- Helper: `ensureKey` leaves the key present. -/
theorem ensureKey_lookup (m : List (String × List TapRef)) (k : String) :
    ∃ l, dictLookup (ensureKey m k) k = some l := by
  unfold ensureKey
  by_cases h : m.any (fun kv => kv.1 == k) = true
  · rw [if_pos h]
    exact dictLookup_some_of_any_true m k h
  · rw [if_neg h]
    refine ⟨[], ?_⟩
    rw [dictLookup_append,
      dictLookup_none_of_any_false m k (Bool.eq_false_iff.mpr h)]
    simp [dictLookup, List.find?]

/-- Helper: `ensureKey` makes the key-presence test true. -/
theorem ensureKey_any (m : List (String × List TapRef)) (k : String) :
    (ensureKey m k).any (fun kv => kv.1 == k) = true := by
  unfold ensureKey
  by_cases h : m.any (fun kv => kv.1 == k) = true
  · rw [if_pos h]
    exact h
  · rw [if_neg h, List.any_append]
    simp

/-- Helper: `dictAppendTap` keeps every key unchanged. -/
theorem dictAppendTap_any (m : List (String × List TapRef)) (k : String)
    (v : TapRef) (k' : String) :
    (dictAppendTap m k v).any (fun kv => kv.1 == k') =
      m.any (fun kv => kv.1 == k') := by
  induction m with
  | nil => rfl
  | cons a m ih =>
    show (((if (a.1 == k) = true then (a.1, a.2 ++ [v]) else a)) ::
      dictAppendTap m k v).any (fun kv => kv.1 == k') = _
    rw [List.any_cons, List.any_cons, ih]
    by_cases h : (a.1 == k) = true
    · rw [if_pos h]
    · rw [if_neg h]

/-- Helper: `dictAppendTap` appends to the value found at the key. -/
theorem dictAppendTap_lookup (m : List (String × List TapRef)) (k : String)
    (v : TapRef) (l : List TapRef) (h : dictLookup m k = some l) :
    dictLookup (dictAppendTap m k v) k = some (l ++ [v]) := by
  induction m with
  | nil => cases h
  | cons a m ih =>
    rw [dictLookup_cons] at h
    show dictLookup ((if (a.1 == k) = true then (a.1, a.2 ++ [v]) else a) ::
      dictAppendTap m k v) k = _
    by_cases hk : (a.1 == k) = true
    · rw [if_pos hk] at h
      rw [if_pos hk, dictLookup_cons]
      simp only [hk, if_true]
      rw [← Option.some.inj h]
    · rw [if_neg hk] at h
      rw [if_neg hk, dictLookup_cons]
      simp only [hk, Bool.false_eq_true, if_false]
      exact ih h

/-- Helper: when no side tap is a stream-tap sink, the creation loop builds
no `StreamTap`. -/
theorem buildSideTaps_stream_const (mp : List String)
    (n2s : List (String × String)) :
    ∀ (l : List SideTap) (acc : TapsAccum),
      (∀ stp ∈ l, stp.sink_type ≠ "stream_tap") →
      (buildSideTaps mp n2s l acc).stream_taps = acc.stream_taps := by
  intro l
  induction l with
  | nil => intro acc _; rfl
  | cons stp rest ih =>
    intro acc hno
    have hs : stp.sink_type ≠ "stream_tap" := hno stp (List.mem_cons_self stp rest)
    have hr : ∀ t ∈ rest, t.sink_type ≠ "stream_tap" :=
      fun t ht => hno t (List.mem_cons_of_mem stp ht)
    have hb : (stp.sink_type == "stream_tap") = false := by
      cases hh : stp.sink_type == "stream_tap" with
      | false => rfl
      | true => exact absurd (eq_of_beq hh) hs
    unfold buildSideTaps
    cases hres : (match dictLookup n2s stp.attach_point with
        | some s => some s
        | none =>
          if mp.contains stp.attach_point then some "__source__" else none :
        Option String) with
    | none =>
      simp only [hres]
      exact ih acc hr
    | some attach_stage =>
      simp only [hres, hb, Bool.false_eq_true, if_false]
      by_cases h2 : (stp.sink_type == "save_video") = true
      · simp only [h2, if_true]
        exact ih _ hr
      · simp only [h2, Bool.false_eq_true, if_false]
        by_cases h3 : (stp.sink_type == "save_image") = true
        · simp only [h3, if_true]
          exact ih _ hr
        · simp only [h3, Bool.false_eq_true, if_false]
          exact ih _ hr

/-- Helper: with an empty main path and an empty stage-name map the creation
loop resolves nothing and creates nothing. -/
theorem buildSideTaps_empty (l : List SideTap) (acc : TapsAccum) :
    buildSideTaps [] [] l acc = acc := by
  induction l with
  | nil => rfl
  | cons stp rest ih => exact ih

/-- C8: when a successfully built plan's side taps include no stream-tap-kind
sink, the builder synthesizes exactly one `StreamTap` named `preview`,
attached to the first main-path node and registered under the `__source__`
dispatch name; when the side-tap loop created at least one `StreamTap`, the
final list is exactly those taps and no preview is added. -/
theorem C8_preview_tap :
    (∀ (plan : ExecutionPlan) (nodes : List GraphNode) (br : BuildResult),
      build_pipeline_with_taps plan nodes = some br →
      (∀ stp ∈ plan.side_taps, stp.sink_type ≠ "stream_tap") →
      ∃ src mpr, plan.main_path = src :: mpr ∧
        br.stream_taps = [⟨"preview", src⟩] ∧
        ∃ l, dictLookup br.taps_by_stage "__source__" = some l ∧
          TapRef.stream ⟨"preview", src⟩ ∈ l) ∧
    (∀ (plan : ExecutionPlan) (nodes : List GraphNode) (br : BuildResult)
        (names : List String) (n2s : List (String × String)),
      resolveStagesGo nodes plan.main_path [] [] = some (names, n2s) →
      build_pipeline_with_taps plan nodes = some br →
      (buildSideTaps plan.main_path n2s plan.side_taps ⟨[], [], []⟩).stream_taps ≠ [] →
      br.stream_taps =
        (buildSideTaps plan.main_path n2s plan.side_taps ⟨[], [], []⟩).stream_taps) := by
  constructor
  · intro plan nodes br hbuild hno
    cases hres : resolveStagesGo nodes plan.main_path [] [] with
    | none => simp [build_pipeline_with_taps, hres] at hbuild
    | some pr =>
      obtain ⟨names, n2s⟩ := pr
      have hstream :
          (buildSideTaps plan.main_path n2s plan.side_taps ⟨[], [], []⟩).stream_taps
            = [] :=
        buildSideTaps_stream_const plan.main_path n2s plan.side_taps ⟨[], [], []⟩ hno
      cases hmp : plan.main_path with
      | nil =>
        exfalso
        rw [hmp] at hres
        have hres0 : resolveStagesGo nodes [] [] [] = some ([], []) := rfl
        rw [hres0] at hres
        obtain ⟨rfl, rfl⟩ : names = [] ∧ n2s = [] := by
          injection hres with hres
          exact ⟨congrArg Prod.fst hres.symm, congrArg Prod.snd hres.symm⟩
        simp only [build_pipeline_with_taps, hmp, hres0, buildSideTaps_empty] at hbuild
        simp at hbuild
      | cons src mpr =>
        refine ⟨src, mpr, rfl, ?_⟩
        rw [hmp] at hres hstream
        obtain ⟨l0, hl0⟩ := ensureKey_lookup
          (buildSideTaps (src :: mpr) n2s plan.side_taps ⟨[], [], []⟩).by_stage
          "__source__"
        simp only [build_pipeline_with_taps, hmp, hres, hstream, List.isEmpty_nil,
          List.isEmpty_cons, Bool.not_false, Bool.and_self, if_true,
          List.head?_cons] at hbuild
        have hany : ((dictAppendTap (ensureKey
            (buildSideTaps (src :: mpr) n2s plan.side_taps ⟨[], [], []⟩).by_stage
            "__source__") "__source__"
            (TapRef.stream ⟨"preview", src⟩)).any
              (fun kv => kv.1 == "__source__")) = true := by
          rw [dictAppendTap_any]
          exact ensureKey_any _ _
        simp only [hany, Bool.not_true, Bool.and_false, Bool.false_eq_true,
          if_false, Option.some.injEq] at hbuild
        rw [← hbuild]
        refine ⟨rfl, l0 ++ [TapRef.stream ⟨"preview", src⟩], ?_, ?_⟩
        · exact dictAppendTap_lookup _ _ _ l0 hl0
        · exact List.mem_append_right l0 (List.mem_singleton.mpr rfl)
  · intro plan nodes br names n2s hres hbuild hne
    have hie :
        (buildSideTaps plan.main_path n2s plan.side_taps ⟨[], [], []⟩).stream_taps.isEmpty
          = false := by
      cases hq :
          (buildSideTaps plan.main_path n2s plan.side_taps ⟨[], [], []⟩).stream_taps with
      | nil => exact absurd hq hne
      | cons a l => rfl
    simp only [build_pipeline_with_taps, hres, hie, Bool.false_and,
      Bool.false_eq_true, if_false] at hbuild
    by_cases hc : (names.isEmpty &&
        !((buildSideTaps plan.main_path n2s plan.side_taps ⟨[], [], []⟩).by_stage.any
          (fun kv => kv.1 == "__source__"))) = true
    · rw [if_pos hc] at hbuild
      cases hbuild
    · rw [if_neg hc] at hbuild
      rw [← Option.some.inj hbuild]

/-- Plan with a one-node main path and no side taps, for the C8 witness. -/
def previewPlan : ExecutionPlan := ⟨["n1"], [], []⟩

/-- Node list of the C8 witness plan. -/
def previewNodes : List GraphNode :=
  [⟨"n1", "source", none, some "camera", none, none⟩]

/-- Build result of the C8 witness plan: one synthesized preview tap. -/
def previewBuild : BuildResult :=
  ⟨[], [⟨"preview", "n1"⟩], [],
    [("__source__", [TapRef.stream ⟨"preview", "n1"⟩])]⟩

/-- C8 (witness): the theorem applied to the concrete plan whose side taps
are empty. -/
theorem C8_preview_tap_witness :
    ∃ src mpr, previewPlan.main_path = src :: mpr ∧
      previewBuild.stream_taps = [⟨"preview", src⟩] ∧
      ∃ l, dictLookup previewBuild.taps_by_stage "__source__" = some l ∧
        TapRef.stream ⟨"preview", src⟩ ∈ l :=
  C8_preview_tap.1 previewPlan previewNodes previewBuild rfl
    (fun stp hs => absurd hs (List.not_mem_nil stp))

/-! Claim C6: compilation of graphs without a terminal sink. -/

/-- The best-path fold of the no-terminal branch, over an arbitrary seed
(`bestAttachPath` is this fold seeded with `[sourceId]`). -/
def foldBest (out : String → List String) (fuel : Nat) (sid : String)
    (init : List String) (aps : List String) : List String :=
  aps.foldl
    (fun best ap =>
      match find_path_dfs out fuel sid ap [] [] with
      | some p => if p.length > best.length then p else best
      | none => best)
    init

/-- Helper: `bestAttachPath` is `foldBest` seeded with the source. -/
theorem bestAttachPath_eq_foldBest (out : String → List String) (fuel : Nat)
    (sid : String) (aps : List String) :
    bestAttachPath out fuel sid aps = foldBest out fuel sid [sid] aps := rfl

/-- Helper: the fold's result is its seed or one of the DFS-found paths, its
length dominates the seed, and it dominates every DFS-found path. -/
theorem foldBest_spec (out : String → List String) (fuel : Nat) (sid : String) :
    ∀ (aps : List String) (init : List String),
      (foldBest out fuel sid init aps = init ∨
        ∃ ap ∈ aps, find_path_dfs out fuel sid ap [] [] =
          some (foldBest out fuel sid init aps)) ∧
      init.length ≤ (foldBest out fuel sid init aps).length ∧
      (∀ ap ∈ aps, ∀ p, find_path_dfs out fuel sid ap [] [] = some p →
        p.length ≤ (foldBest out fuel sid init aps).length) := by
  intro aps
  induction aps with
  | nil =>
    intro init
    exact ⟨Or.inl rfl, le_refl _, fun ap hap => absurd hap (List.not_mem_nil ap)⟩
  | cons ap aps ih =>
    intro init
    have hstep : foldBest out fuel sid init (ap :: aps) =
        foldBest out fuel sid
          (match find_path_dfs out fuel sid ap [] [] with
            | some p => if p.length > init.length then p else init
            | none => init) aps := rfl
    cases hdfs : find_path_dfs out fuel sid ap [] [] with
    | none =>
      have hstep2 : foldBest out fuel sid init (ap :: aps) =
          foldBest out fuel sid init aps := by
        rw [hstep, hdfs]
      obtain ⟨hA, hB, hC⟩ := ih init
      rw [hstep2]
      refine ⟨?_, hB, ?_⟩
      · rcases hA with h | ⟨ap2, hm, hp⟩
        · exact Or.inl h
        · exact Or.inr ⟨ap2, List.mem_cons_of_mem ap hm, hp⟩
      · intro ap2 hmem p hp
        rcases List.mem_cons.mp hmem with rfl | hm
        · rw [hdfs] at hp; cases hp
        · exact hC ap2 hm p hp
    | some p0 =>
      by_cases hlen : p0.length > init.length
      · have hstep2 : foldBest out fuel sid init (ap :: aps) =
            foldBest out fuel sid p0 aps := by
          rw [hstep, hdfs]
          simp [hlen]
        obtain ⟨hA, hB, hC⟩ := ih p0
        rw [hstep2]
        refine ⟨?_, le_trans (le_of_lt hlen) hB, ?_⟩
        · rcases hA with h | ⟨ap2, hm, hp⟩
          · exact Or.inr ⟨ap, List.mem_cons_self ap aps, by rw [hdfs, h]⟩
          · exact Or.inr ⟨ap2, List.mem_cons_of_mem ap hm, hp⟩
        · intro ap2 hmem p hp
          rcases List.mem_cons.mp hmem with rfl | hm
          · rw [hdfs] at hp
            cases hp
            exact hB
          · exact hC ap2 hm p hp
      · have hstep2 : foldBest out fuel sid init (ap :: aps) =
            foldBest out fuel sid init aps := by
          rw [hstep, hdfs]
          simp [hlen]
        obtain ⟨hA, hB, hC⟩ := ih init
        rw [hstep2]
        refine ⟨?_, hB, ?_⟩
        · rcases hA with h | ⟨ap2, hm, hp⟩
          · exact Or.inl h
          · exact Or.inr ⟨ap2, List.mem_cons_of_mem ap hm, hp⟩
        · intro ap2 hmem p hp
          rcases List.mem_cons.mp hmem with rfl | hm
          · rw [hdfs] at hp
            cases hp
            exact le_trans (Nat.le_of_not_lt hlen) hB
          · exact hC ap2 hm p hp

/-- C6 (counterexample): on the diamond graph (src → X directly, src → A → X
through a stage, X → tap) compilation succeeds with
`main_path = [src, X]`, yet `[src, A, X]` is also a path from the source to
the side tap's attach point X and it is strictly longer — refuting
"main_path is the longest source-to-attach-point path": the compiler keeps
the FIRST path its DFS finds per attach point, not the longest one. -/
theorem C6_counterexample :
    compile_graph diaNodes diaEdges =
      Except.ok
        ⟨["src", "X"], [⟨"tap", "stream_tap", "X", "frame", "frame"⟩],
          [("src", []), ("A", []), ("X", []), ("tap", [])]⟩ ∧
    isEdgeChain ⟨diaNodes, diaEdges⟩ ["src", "A", "X"] = true ∧
    (["src", "A", "X"] : List String).head? = some "src" ∧
    (["src", "A", "X"] : List String).getLast? = some "X" ∧
    (["src", "A", "X"] : List String).length >
      (["src", "X"] : List String).length := by
  exact ⟨rfl, rfl, rfl, rfl, by decide⟩

/-- C6 (amended): for a validated graph with no terminal-output sink,
compilation succeeds if and only if at least one side-tap-kind sink is fed by
a node reachable from the source (otherwise it raises
`GraphValidationError`); on success `main_path` is either `[source]` or one
of the first-found DFS paths from the source to a side-tap attach point, and
its length dominates every such first-found path (it need NOT be the longest
source-to-attach-point path in the graph — see the counterexample).  In
particular, for the graph source → streamTapNode the plan has
`main_path = [source]` and one side tap with `attach_point = source`. -/
theorem C6_no_terminal_branch (nodes : List GraphNode) (edges : List GraphEdge)
    (src : GraphNode) (rest : List GraphNode) (reach : List String)
    (ste : List GraphEdge)
    (hval : validate_graph ⟨nodes, edges⟩ = none)
    (hsrc : PipelineGraph.get_sources ⟨nodes, edges⟩ = src :: rest)
    (hsvt : find_svt_output ⟨nodes, edges⟩ = none)
    (hreach : reach = nodes_reachable_from (PipelineGraph.outgoing ⟨nodes, edges⟩)
        (graphFuel ⟨nodes, edges⟩) [src.id] [src.id])
    (hste : ste = sideTapEdges ⟨nodes, edges⟩ reach) :
    ((∃ plan, compile_graph nodes edges = Except.ok plan) ↔ ste ≠ []) ∧
    (∀ plan, compile_graph nodes edges = Except.ok plan →
      (plan.main_path = [src.id] ∨
        ∃ ap ∈ attachPoints ste,
          find_path_dfs (PipelineGraph.outgoing ⟨nodes, edges⟩)
            (graphFuel ⟨nodes, edges⟩) src.id ap [] [] = some plan.main_path) ∧
      (∀ ap ∈ attachPoints ste, ∀ p,
        find_path_dfs (PipelineGraph.outgoing ⟨nodes, edges⟩)
          (graphFuel ⟨nodes, edges⟩) src.id ap [] [] = some p →
        p.length ≤ plan.main_path.length)) ∧
    compile_graph tapOnlyNodes tapOnlyEdges =
      Except.ok
        ⟨["source"], [⟨"streamTapNode", "stream_tap", "source", "frame", "frame"⟩],
          [("source", []), ("streamTapNode", [])]⟩ := by
  subst hreach
  subst hste
  refine ⟨?_, ?_, rfl⟩
  · constructor
    · rintro ⟨plan, h⟩ hnil
      have hie : (sideTapEdges ⟨nodes, edges⟩
          (nodes_reachable_from (PipelineGraph.outgoing ⟨nodes, edges⟩)
            (graphFuel ⟨nodes, edges⟩) [src.id] [src.id])).isEmpty = true := by
        rw [hnil]
        rfl
      simp [compile_graph, hval, hsrc, hsvt, hie] at h
    · intro hne
      have hie : (sideTapEdges ⟨nodes, edges⟩
          (nodes_reachable_from (PipelineGraph.outgoing ⟨nodes, edges⟩)
            (graphFuel ⟨nodes, edges⟩) [src.id] [src.id])).isEmpty = false := by
        cases hq : sideTapEdges ⟨nodes, edges⟩
            (nodes_reachable_from (PipelineGraph.outgoing ⟨nodes, edges⟩)
              (graphFuel ⟨nodes, edges⟩) [src.id] [src.id]) with
        | nil => exact absurd hq hne
        | cons a l => rfl
      refine ⟨finishPlan ⟨nodes, edges⟩
        (bestAttachPath (PipelineGraph.outgoing ⟨nodes, edges⟩)
          (graphFuel ⟨nodes, edges⟩) src.id
          (attachPoints (sideTapEdges ⟨nodes, edges⟩
            (nodes_reachable_from (PipelineGraph.outgoing ⟨nodes, edges⟩)
              (graphFuel ⟨nodes, edges⟩) [src.id] [src.id])))), ?_⟩
      simp [compile_graph, hval, hsrc, hsvt, hie]
  · intro plan h
    have hie : (sideTapEdges ⟨nodes, edges⟩
        (nodes_reachable_from (PipelineGraph.outgoing ⟨nodes, edges⟩)
          (graphFuel ⟨nodes, edges⟩) [src.id] [src.id])).isEmpty = false := by
      cases hq : sideTapEdges ⟨nodes, edges⟩
          (nodes_reachable_from (PipelineGraph.outgoing ⟨nodes, edges⟩)
            (graphFuel ⟨nodes, edges⟩) [src.id] [src.id]) with
      | nil =>
        exfalso
        have hie2 : (sideTapEdges ⟨nodes, edges⟩
            (nodes_reachable_from (PipelineGraph.outgoing ⟨nodes, edges⟩)
              (graphFuel ⟨nodes, edges⟩) [src.id] [src.id])).isEmpty = true := by
          rw [hq]
          rfl
        simp [compile_graph, hval, hsrc, hsvt, hie2] at h
      | cons a l => rfl
    simp only [compile_graph, hval, hsrc, hsvt, hie, Bool.false_eq_true, if_false,
      Except.ok.injEq] at h
    have hmp : plan.main_path =
        foldBest (PipelineGraph.outgoing ⟨nodes, edges⟩) (graphFuel ⟨nodes, edges⟩)
          src.id [src.id]
          (attachPoints (sideTapEdges ⟨nodes, edges⟩
            (nodes_reachable_from (PipelineGraph.outgoing ⟨nodes, edges⟩)
              (graphFuel ⟨nodes, edges⟩) [src.id] [src.id]))) := by
      rw [← h]
      rfl
    obtain ⟨hA, _, hC⟩ := foldBest_spec (PipelineGraph.outgoing ⟨nodes, edges⟩)
      (graphFuel ⟨nodes, edges⟩) src.id
      (attachPoints (sideTapEdges ⟨nodes, edges⟩
        (nodes_reachable_from (PipelineGraph.outgoing ⟨nodes, edges⟩)
          (graphFuel ⟨nodes, edges⟩) [src.id] [src.id]))) [src.id]
    constructor
    · rw [hmp]
      exact hA
    · intro ap hap p hp
      rw [hmp]
      exact hC ap hap p hp

/-- Source node of the two-node tap-only graph. -/
def tapOnlySrc : GraphNode := ⟨"source", "source", none, some "camera", none, none⟩

/-- Side-tap edge list computed for the tap-only graph. -/
def tapOnlySte : List GraphEdge :=
  [⟨"e1", "source", "frame", "streamTapNode", "frame"⟩]

/-- C6 (witness): the amended theorem applied to the concrete graph
source → streamTapNode. -/
theorem C6_no_terminal_branch_witness :
    ((∃ plan, compile_graph tapOnlyNodes tapOnlyEdges = Except.ok plan) ↔
      tapOnlySte ≠ []) ∧
    (∀ plan, compile_graph tapOnlyNodes tapOnlyEdges = Except.ok plan →
      (plan.main_path = [tapOnlySrc.id] ∨
        ∃ ap ∈ attachPoints tapOnlySte,
          find_path_dfs (PipelineGraph.outgoing ⟨tapOnlyNodes, tapOnlyEdges⟩)
            (graphFuel ⟨tapOnlyNodes, tapOnlyEdges⟩) tapOnlySrc.id ap [] [] =
            some plan.main_path) ∧
      (∀ ap ∈ attachPoints tapOnlySte, ∀ p,
        find_path_dfs (PipelineGraph.outgoing ⟨tapOnlyNodes, tapOnlyEdges⟩)
          (graphFuel ⟨tapOnlyNodes, tapOnlyEdges⟩) tapOnlySrc.id ap [] [] = some p →
        p.length ≤ plan.main_path.length)) ∧
    compile_graph tapOnlyNodes tapOnlyEdges =
      Except.ok
        ⟨["source"], [⟨"streamTapNode", "stream_tap", "source", "frame", "frame"⟩],
          [("source", []), ("streamTapNode", [])]⟩ :=
  C6_no_terminal_branch tapOnlyNodes tapOnlyEdges tapOnlySrc []
    ["source", "streamTapNode"] tapOnlySte rfl rfl rfl rfl rfl

end SVT
